import Mathlib

/-!
Shallow embedding of the Data container library (src/Data/_internal):
the Data class of data.py, the Field and ComputedField classes of
fields.py, the _Dataclass constructor of factory.py and the FrozenData
subclass.  Python dictionaries are modelled as association lists that
preserve insertion order; mutable Field objects live in an explicit
heap (Store) addressed by numeric references, so that sharing of Field
objects between containers is observable.  Potentially non-terminating
evaluation (ComputedField methods reading their own container) is
modelled with a fuel parameter: a result of none means the recursion
depth bound was exhausted.
-/

namespace DataModel

/-- Python values stored in a container's content mapping.  The claims
only require JSON scalars plus Field objects (by reference into the
field heap). -/
inductive Val where
  | vInt (n : Int)
  | vStr (s : String)
  | vBool (b : Bool)
  | vNone
  | vField (r : Nat)
deriving DecidableEq, Repr

/-- Typing annotations used by the claims (a fragment of the
annotation language handled by Data.__check_type: simple classes and
the Any wildcard). -/
inductive Ty where
  | tInt
  | tStr
  | tBool
  | tAny
deriving DecidableEq, Repr

/-- Field validator predicates.  The library's default validator is
the constant-true function (fields.py line 27). -/
inductive ValidatorK where
  | always
deriving DecidableEq, Repr

def validatorOk : ValidatorK → Val → Bool
  | .always, _ => true

/-- The stored function of a ComputedField, as a small syntax that is
interpreted against the owning container: either a constant, or an
attribute read of a key of the owner (the shape the claims need). -/
inductive MethodK where
  | const (v : Val)
  | readSelf (k : String)
deriving DecidableEq, Repr

/-- A Field / ComputedField heap object (fields.py).  For a plain
Field, fvalue is the _value slot; for a ComputedField, method and
recursion are meaningful and value access runs the method. -/
structure FieldObj where
  isComputed : Bool
  default : Val
  required : Bool
  classfield : Bool
  fvalue : Val
  validator : ValidatorK
  method : MethodK
  recursion : Bool
deriving DecidableEq, Repr

/-- The heap of mutable Field objects; next is the next fresh
reference used when Data.__init__ copies a field. -/
structure Store where
  heap : List (Nat × FieldObj)
  next : Nat
deriving DecidableEq, Repr

/-- Error kinds raised by the modelled code paths. -/
inductive PyErr where
  | keyError
  | typeMismatch (names : List String)
  | typeError
  | attributeError
  | attributeErrorReadOnly
deriving DecidableEq, Repr

/-- Association-list lookup: first matching key (Python dicts have
unique keys; all our constructions preserve that). -/
def alook {κ α : Type} [DecidableEq κ] : List (κ × α) → κ → Option α
  | [], _ => none
  | (k', v) :: rest, k => if k' = k then some v else alook rest k

/-- Python dict assignment d[k] = v: update the existing entry in
place (keeping its position) or append a new entry at the end. -/
def aset {κ α : Type} [DecidableEq κ] : List (κ × α) → κ → α → List (κ × α)
  | [], k, v => [(k, v)]
  | (k', v') :: rest, k, v =>
      if k' = k then (k', v) :: rest else (k', v') :: aset rest k v

/-- Python dict deletion: remove the entry for k. -/
def adel {κ α : Type} [DecidableEq κ] : List (κ × α) → κ → List (κ × α)
  | [], _ => []
  | (k', v') :: rest, k =>
      if k' = k then adel rest k else (k', v') :: adel rest k

def hasKeyB {κ α : Type} [DecidableEq κ] (l : List (κ × α)) (k : κ) : Bool :=
  (alook l k).isSome

/-- Python truthiness for the modelled values. -/
def pyTruthy : Val → Bool
  | .vInt n => decide (n ≠ 0)
  | .vStr s => decide (s ≠ "")
  | .vBool b => b
  | .vNone => false
  | .vField _ => true

/-- Python a or b: the first operand if truthy, else the second. -/
def pyOr (a b : Val) : Val := if pyTruthy a then a else b

/-- str() of a modelled value (Python repr of a Field object is
collapsed to a token; no claim observes it). -/
def pyStr : Val → String
  | .vInt n => toString n
  | .vStr s => s
  | .vBool b => if b then "True" else "False"
  | .vNone => "None"
  | .vField _ => "<Field>"

def digitsOf : List Char → Option Nat
  | [] => none
  | l =>
      if l.all Char.isDigit then
        some (l.foldl (fun acc c => acc * 10 + (c.toNat - 48)) 0)
      else none

/-- Strip surrounding spaces from a character list. -/
def stripSpaces (l : List Char) : List Char :=
  ((l.dropWhile (· = ' ')).reverse.dropWhile (· = ' ')).reverse

/-- int(s) on a string: optional surrounding whitespace, optional
sign, then decimal digits; anything else raises ValueError (modelled
as none). -/
def parseIntStr (s : String) : Option Int :=
  match stripSpaces s.toList with
  | '-' :: rest => (digitsOf rest).map (fun n => -(n : Int))
  | '+' :: rest => (digitsOf rest).map (fun n => (n : Int))
  | l => (digitsOf l).map (fun n => (n : Int))

/-- Invoking an annotation as a single-argument constructor, as the
auto-cast step does with expected(value): some w on success, none when
the call raises.  typing.Any cannot be instantiated, int() rejects
non-numeric arguments, str() and bool() always succeed. -/
def pyCall : Ty → Val → Option Val
  | .tAny, _ => none
  | .tInt, .vInt n => some (.vInt n)
  | .tInt, .vBool b => some (.vInt (if b then 1 else 0))
  | .tInt, .vStr s => (parseIntStr s).map Val.vInt
  | .tInt, _ => none
  | .tStr, v => some (.vStr (pyStr v))
  | .tBool, v => some (.vBool (pyTruthy v))

/-- isinstance check of a resolved (non-Field) value against a simple
annotation; Python bool is a subclass of int. -/
def checkScalar : Val → Ty → Bool
  | _, .tAny => true
  | .vInt _, .tInt => true
  | .vBool _, .tInt => true
  | _, .tInt => false
  | .vStr _, .tStr => true
  | _, .tStr => false
  | .vBool _, .tBool => true
  | _, .tBool => false

/-- Dereference a field reference.  All states appearing in the
theorems are built by the modelled constructors, so references are
always live; a dangling reference yields an inert placeholder. -/
def findF (st : Store) (r : Nat) : FieldObj :=
  (alook st.heap r).getD
    ⟨false, .vNone, false, false, .vNone, .always, .const .vNone, false⟩

/-- Mutate one field object in the heap. -/
def updF (st : Store) (r : Nat) (g : FieldObj → FieldObj) : Store :=
  { st with heap := st.heap.map (fun p => if p.1 = r then (p.1, g p.2) else p) }

/-- The ComputedField re-entrancy flag (fields.py, recursion). -/
def setRec (st : Store) (r : Nat) (b : Bool) : Store :=
  updF st r (fun o => { o with recursion := b })

/-- The Field.value setter (fields.py lines 39-41). -/
def setFVal (st : Store) (r : Nat) (v : Val) : Store :=
  updF st r (fun o => { o with fvalue := v })

/-- The per-instance container state of a Data object (the slots of
data.py: content, annotations, the field registry __fields__, the
three behavioural flags, and the scoped-mutation snapshot slots
__original__ and __was_frozen__). -/
structure DataObj where
  content : List (String × Val)
  annotations : List (String × Ty)
  fields : List (String × Nat)
  frozen : Bool
  autoCast : Bool
  strictTyping : Bool
  original : List (String × Val)
  wasFrozen : Bool
deriving DecidableEq, Repr

/-! Evaluation of values against a container.  resolveValue is
Data._resolve_value (data.py lines 266-271), cfValue is
ComputedField.value (fields.py lines 61-67, including the re-entrancy
guard), and evalMethod interprets the stored method against the owning
container (an attribute read goes through Data.__getattr__, data.py
lines 395-399).  The Nat argument is recursion fuel; none means the
depth bound was exhausted (the Python code would still be
recursing). -/

mutual

def resolveValue : Nat → Store → DataObj → Val → Option (Store × Except PyErr Val)
  | 0, _, _, _ => none
  | fuel + 1, st, d, .vField r =>
      if (findF st r).isComputed then cfValue fuel st d r
      else some (st, .ok (pyOr (findF st r).fvalue (findF st r).default))
  | _ + 1, st, _, v => some (st, .ok v)

def cfValue : Nat → Store → DataObj → Nat → Option (Store × Except PyErr Val)
  | 0, _, _, _ => none
  | fuel + 1, st, d, r =>
      if (findF st r).recursion then some (st, .ok .vNone)
      else
        match evalMethod fuel (setRec st r true) d (findF st r).method with
        | none => none
        | some (st2, .error e) => some (st2, .error e)
        | some (st2, .ok res) => some (setRec st2 r false, .ok res)

def evalMethod : Nat → Store → DataObj → MethodK → Option (Store × Except PyErr Val)
  | 0, _, _, _ => none
  | _ + 1, st, _, .const v => some (st, .ok v)
  | fuel + 1, st, d, .readSelf k =>
      match alook d.content k with
      | some v => resolveValue fuel st d v
      | none => some (st, .error .attributeError)

end

/-- Data.__check_type (data.py lines 109-233) restricted to the
modelled annotation fragment: a Field value is first resolved through
its value property (running the method for a ComputedField); a None
result of an unset required field fails outright, otherwise the
default is substituted; the resolved value is then checked with
isinstance. -/
def checkType : Nat → Store → DataObj → Val → Ty → Option (Store × Except PyErr Bool)
  | 0, _, _, _, _ => none
  | fuel + 1, st, d, .vField r, t =>
      let obj := findF st r
      if obj.isComputed then
        match cfValue fuel st d r with
        | none => none
        | some (st2, .error e) => some (st2, .error e)
        | some (st2, .ok v) =>
            if v = .vNone then
              if obj.required then some (st2, .ok false)
              else some (st2, .ok (checkScalar obj.default t))
            else some (st2, .ok (checkScalar v t))
      else
        if obj.fvalue = .vNone then
          if obj.required then some (st, .ok false)
          else some (st, .ok (checkScalar obj.default t))
        else some (st, .ok (checkScalar obj.fvalue t))
  | _ + 1, st, _, v, t => some (st, .ok (checkScalar v t))

/-- Pure restatement of checkType on states whose field references
are all non-computed; used to phrase characterisation theorems. -/
def checkTypeNC (st : Store) (v : Val) (t : Ty) : Bool :=
  match v with
  | .vField r =>
      let obj := findF st r
      if obj.fvalue = .vNone then
        if obj.required then false else checkScalar obj.default t
      else checkScalar obj.fvalue t
  | _ => checkScalar v t

/-- Data.__get_incorrect_typing__ (data.py lines 235-251): walk the
annotation mapping in order, skip keys absent from content, and
collect every annotated key whose stored value fails the check. -/
def gitAux : Nat → Store → DataObj → List (String × Ty) → List String →
    Option (Store × Except PyErr (List String))
  | _, st, _, [], acc => some (st, .ok acc)
  | fuel, st, d, (k, t) :: rest, acc =>
      match alook d.content k with
      | none => gitAux fuel st d rest acc
      | some v =>
          match checkType fuel st d v t with
          | none => none
          | some (st2, .error e) => some (st2, .error e)
          | some (st2, .ok b) =>
              gitAux fuel st2 d rest (if b then acc else acc ++ [k])

/-- The per-field condition of Data.__raise_typing_error__ (data.py
line 261): a non-computed field is offending when its validator
rejects (value or default) or it is required with a falsy value. -/
def fieldBad (obj : FieldObj) : Bool :=
  !obj.isComputed &&
    (!(validatorOk obj.validator (pyOr obj.fvalue obj.default)) ||
      (obj.required && !(pyTruthy obj.fvalue)))

/-- The registry loop of Data.__raise_typing_error__ (data.py lines
260-262): append each offending registered field name not already
collected. -/
def rteAux (st : Store) : List (String × Nat) → List String → List String
  | [], acc => acc
  | (name, r) :: rest, acc =>
      if fieldBad (findF st r) && !(acc.contains name) then
        rteAux st rest (acc ++ [name])
      else rteAux st rest acc

/-- Data.__raise_typing_error__ (data.py lines 253-264): an empty
annotation mapping short-circuits; under strict typing the batched
annotation mismatches are gathered first, then offending registered
fields are appended; a nonempty list raises one TypeError naming all
of them. -/
def raiseTypingError (fuel : Nat) (st : Store) (d : DataObj) :
    Option (Store × Option PyErr) :=
  if d.annotations = [] then some (st, none)
  else
    match (if d.strictTyping then gitAux fuel st d d.annotations []
           else some (st, Except.ok [])) with
    | none => none
    | some (st2, .error e) => some (st2, some e)
    | some (st2, .ok inc) =>
        let inc2 := rteAux st2 d.fields inc
        if inc2 = [] then some (st2, none)
        else some (st2, some (.typeMismatch inc2))

/-- Result of a mutating entry point: post-heap, post-object, and the
exception that propagated to the caller, if any (Python leaves the
mutations already applied when the trailing validation raises). -/
structure OpRes where
  st : Store
  d : DataObj
  err : Option PyErr
deriving DecidableEq, Repr

def runRTE (fuel : Nat) (st : Store) (d : DataObj) : Option OpRes :=
  match raiseTypingError fuel st d with
  | none => none
  | some (st2, e) => some ⟨st2, d, e⟩

/-- The auto-cast step of Data.__setitem__ (data.py lines 421-427):
when auto_cast is on and an annotation exists for the key, invoke the
annotated type on the value; the try/except swallows any failure and
keeps the original value. -/
def castStep (d : DataObj) (k : String) (v : Val) : Val :=
  if d.autoCast then
    match alook d.annotations k with
    | some t =>
        match pyCall t v with
        | some w => w
        | none => v
    | none => v
  else v

/-- The storage branches of Data.__setitem__ after the cast (data.py
lines 428-434): a Field value replaces the slot and is registered; a
plain value written over an existing non-computed Field updates that
Field's value in place; otherwise the raw value replaces the slot --
note that evaluating content[key] in the elif raises KeyError when the
key is absent.  Every branch ends in full revalidation. -/
def setitemPost (fuel : Nat) (st : Store) (d : DataObj) (k : String) (v : Val) :
    Option OpRes :=
  match v with
  | .vField r =>
      runRTE fuel st
        { d with fields := aset d.fields k r, content := aset d.content k v }
  | _ =>
      match alook d.content k with
      | none => some ⟨st, d, some .keyError⟩
      | some (.vField r) =>
          if (findF st r).isComputed then
            runRTE fuel st { d with content := aset d.content k v }
          else
            runRTE fuel (setFVal st r v) d
      | some _ =>
          runRTE fuel st { d with content := aset d.content k v }

/-- Data.__setitem__ (data.py lines 417-434): silent no-op when
frozen, else auto-cast then store then revalidate. -/
def setitem (fuel : Nat) (st : Store) (d : DataObj) (k : String) (v : Val) :
    Option OpRes :=
  if d.frozen then some ⟨st, d, none⟩
  else setitemPost fuel st d k (castStep d k v)

/-- Data.__setattr__ (data.py lines 401-402) delegates to
__setitem__. -/
def setattrOp (fuel : Nat) (st : Store) (d : DataObj) (k : String) (v : Val) :
    Option OpRes :=
  setitem fuel st d k v

/-- Data.__getitem__ (data.py lines 415-416). -/
def getitem (fuel : Nat) (st : Store) (d : DataObj) (k : String) :
    Option (Store × Except PyErr Val) :=
  match alook d.content k with
  | none => some (st, .error .keyError)
  | some v => resolveValue fuel st d v

/-- Data.__delitem__ (data.py lines 435-440): no-op when frozen; the
registry entry is removed before content deletion, which raises
KeyError for an absent key. -/
def delitem (st : Store) (d : DataObj) (k : String) : OpRes :=
  if d.frozen then ⟨st, d, none⟩
  else
    let d1 := if hasKeyB d.fields k then { d with fields := adel d.fields k } else d
    if hasKeyB d1.content k then
      ⟨st, { d1 with content := adel d1.content k }, none⟩
    else ⟨st, d1, some .keyError⟩

/-- Data.pop (data.py lines 359-371): when frozen, returns the raw
content entry or the default without mutating; otherwise drops a Field
slot from the registry, resolves the supplied default, and pops the
key from content (returning the raw stored value when present). -/
def popOp (fuel : Nat) (st : Store) (d : DataObj) (k : String) (dflt : Val) :
    Option (OpRes × Val) :=
  if d.frozen then some (⟨st, d, none⟩, (alook d.content k).getD dflt)
  else
    let d1 :=
      match alook d.content k with
      | some (.vField _) => { d with fields := adel d.fields k }
      | _ => d
    match resolveValue fuel st d dflt with
    | none => none
    | some (st2, .error e) => some (⟨st2, d1, some e⟩, .vNone)
    | some (st2, .ok rd) =>
        match alook d1.content k with
        | some v => some (⟨st2, { d1 with content := adel d1.content k }, none⟩, v)
        | none => some (⟨st2, d1, none⟩, rd)

/-- The write loop of Data.update (data.py lines 376-377); an
exception from a write propagates with the mutations so far. -/
def updAux (fuel : Nat) (st : Store) (d : DataObj) :
    List (String × Val) → Option OpRes
  | [] => some ⟨st, d, none⟩
  | (k, v) :: rest =>
      match setitem fuel st d k v with
      | none => none
      | some ⟨st2, d2, some e⟩ => some ⟨st2, d2, some e⟩
      | some ⟨st2, d2, none⟩ => updAux fuel st2 d2 rest

/-- Data.update (data.py lines 373-378): no-op when frozen, else write
every pair and revalidate once more at the end. -/
def updateOp (fuel : Nat) (st : Store) (d : DataObj) (pairs : List (String × Val)) :
    Option OpRes :=
  if d.frozen then some ⟨st, d, none⟩
  else
    match updAux fuel st d pairs with
    | none => none
    | some ⟨st2, d2, some e⟩ => some ⟨st2, d2, some e⟩
    | some ⟨st2, d2, none⟩ => runRTE fuel st2 d2

/-- Data.clear (data.py lines 380-384): no-op when frozen, else clears
both the registry and the content mapping. -/
def clearOp (st : Store) (d : DataObj) : OpRes :=
  if d.frozen then ⟨st, d, none⟩
  else ⟨st, { d with fields := [], content := [] }, none⟩

/-- Data.setdefault (data.py lines 342-353): on a frozen container
just read; otherwise, for an absent key pre-register a Field default
and write it through __setitem__ (so a plain default on an absent key
hits the same KeyError as any fresh write), then read the key back and
revalidate. -/
def setdefault (fuel : Nat) (st : Store) (d : DataObj) (k : String) (dflt : Val) :
    Option (OpRes × Option Val) :=
  if d.frozen then some (⟨st, d, none⟩, some ((alook d.content k).getD dflt))
  else
    let step :=
      if hasKeyB d.content k then some ⟨st, d, (none : Option PyErr)⟩
      else
        let d1 :=
          match dflt with
          | .vField r => { d with fields := aset d.fields k r }
          | _ => d
        match resolveValue fuel st d1 dflt with
        | none => none
        | some (st2, .error e) => some ⟨st2, d1, some e⟩
        | some (st2, .ok _) => setitem fuel st2 d1 k dflt
    match step with
    | none => none
    | some ⟨st2, d2, some e⟩ => some (⟨st2, d2, some e⟩, none)
    | some ⟨st2, d2, none⟩ =>
        match getitem fuel st2 d2 k with
        | none => none
        | some (st3, .error e) => some (⟨st3, d2, some e⟩, none)
        | some (st3, .ok res) =>
            match raiseTypingError fuel st3 d2 with
            | none => none
            | some (st4, some e) => some (⟨st4, d2, some e⟩, none)
            | some (st4, none) => some (⟨st4, d2, none⟩, some res)

/-- Data.__enter__ (data.py lines 404-408): snapshot content and the
frozen flag, then force-unfreeze. -/
def enterOp (st : Store) (d : DataObj) : OpRes :=
  ⟨st, { d with original := d.content, wasFrozen := d.frozen, frozen := false }, none⟩

/-- Data.__exit__ (data.py lines 410-413): restore the snapshot only
when the block raised, then always restore the frozen flag. -/
def exitOp (st : Store) (d : DataObj) (exc : Bool) : OpRes :=
  let d1 := if exc then { d with content := d.original } else d
  ⟨st, { d1 with frozen := d1.wasFrozen }, none⟩

/-- Data.get_content (data.py lines 273-274): resolve every content
value. -/
def getContentAux (fuel : Nat) (st : Store) (d : DataObj) :
    List (String × Val) → Option (Store × Except PyErr (List (String × Val)))
  | [] => some (st, .ok [])
  | (k, v) :: rest =>
      match resolveValue fuel st d v with
      | none => none
      | some (st2, .error e) => some (st2, .error e)
      | some (st2, .ok rv) =>
          match getContentAux fuel st2 d rest with
          | none => none
          | some (st3, .error e) => some (st3, .error e)
          | some (st3, .ok l) => some (st3, .ok ((k, rv) :: l))

/-- Data.to_dict (data.py lines 290-295): the resolved content
mapping, except that a frozen container returns frozenset(content),
i.e. only the key set. -/
def toDict (fuel : Nat) (st : Store) (d : DataObj) :
    Option (Store × Except PyErr (Sum (List String) (List (String × Val)))) :=
  match getContentAux fuel st d d.content with
  | none => none
  | some (st2, .error e) => some (st2, .error e)
  | some (st2, .ok l) =>
      if d.frozen then some (st2, .ok (.inl (l.map Prod.fst)))
      else some (st2, .ok (.inr l))

/-- Field.copy (fields.py lines 32-33): a fresh plain Field carrying
over default, validator and required, but not the current value and
not the classfield mark. -/
def copyFieldObj (obj : FieldObj) : FieldObj :=
  { isComputed := false, default := obj.default, required := obj.required,
    classfield := false, fvalue := .vNone, validator := obj.validator,
    method := .const .vNone, recursion := false }

/-- The source-mapping loop of Data.__init__ (data.py lines 36-51):
non-Field values and classfields pass through; any other Field is
copied into a fresh heap object owned by the new instance.
ComputedField.copy (fields.py line 57) calls the two-argument
constructor with one argument, so copying a non-classfield
ComputedField raises TypeError. -/
def prepLoop (st : Store) (acc : List (String × Val)) :
    List (String × Val) → Except PyErr (Store × List (String × Val))
  | [] => .ok (st, acc)
  | (k, v) :: rest =>
      match v with
      | .vField r =>
          let obj := findF st r
          if obj.classfield then prepLoop st (aset acc k v) rest
          else if obj.isComputed then .error .typeError
          else
            let nr := st.next
            prepLoop ⟨st.heap ++ [(nr, copyFieldObj obj)], nr + 1⟩
              (aset acc k (.vField nr)) rest
      | _ => prepLoop st (aset acc k v) rest

/-- The keyword loop of Data.__init__ (data.py lines 53-58): a keyword
for a key already prepared as a non-computed Field updates that
Field's value; otherwise the raw keyword value is stored. -/
def kwLoop (st : Store) (acc : List (String × Val)) :
    List (String × Val) → Store × List (String × Val)
  | [] => (st, acc)
  | (k, v) :: rest =>
      match alook acc k with
      | some (.vField r) =>
          if (findF st r).isComputed then kwLoop st (aset acc k v) rest
          else kwLoop (setFVal st r v) acc rest
      | _ => kwLoop st (aset acc k v) rest

/-- The instance part of the meta property (data.py line 83):
content.get of the __meta_config__ key, fed to dict.update.  A dict
value contributes its entries and the empty string is an empty update
sequence; every other modelled value makes dict.update raise. -/
def instMetaOf (content : List (String × Val)) : Except PyErr (List (String × Val)) :=
  match alook content "__meta_config__" with
  | none => .ok []
  | some (.vStr "") => .ok []
  | some _ => .error .typeError

/-- The merge of the meta property (data.py lines 84-86): class config
first, then the instance entries override. -/
def mergeMeta (clsMeta instMeta : List (String × Val)) : List (String × Val) :=
  instMeta.foldl (fun acc p => aset acc p.1 p.2)
    (clsMeta.foldl (fun acc p => aset acc p.1 p.2) [])

/-- meta.get(name, False) followed by the truthiness use in the flag
assignment. -/
def metaFlag (mm : List (String × Val)) (name : String) : Bool :=
  pyTruthy ((alook mm name).getD (.vBool false))

/-- The field registry built at the end of Data.__init__ (data.py line
77): the content entries whose value is a Field. -/
def fieldsOf (content : List (String × Val)) : List (String × Nat) :=
  content.filterMap (fun p =>
    match p.2 with
    | .vField r => some (p.1, r)
    | _ => none)

/-- Data.__init__ (data.py lines 31-77): prepare content from the
source mapping (copying non-classfield Fields), fold in the keyword
overrides, resolve the three behavioural flags as the Python
expression `arg or self.meta.get(name, False)` over the merged meta
config, and build the field registry.  Annotations start empty. -/
def mkData (st : Store) (clsMeta : List (String × Val))
    (value : List (String × Val)) (kwargs : List (String × Val))
    (frozenArg autoCastArg strictArg : Bool) : Except PyErr (Store × DataObj) :=
  match prepLoop st [] value with
  | .error e => .error e
  | .ok (st1, prep1) =>
      let (st2, prep2) := kwLoop st1 prep1 kwargs
      match instMetaOf prep2 with
      | .error e => .error e
      | .ok im =>
          let mm := mergeMeta clsMeta im
          .ok (st2,
            { content := prep2,
              annotations := [],
              fields := fieldsOf prep2,
              frozen := frozenArg || metaFlag mm "frozen",
              autoCast := autoCastArg || metaFlag mm "auto_cast",
              strictTyping := strictArg || metaFlag mm "strict_typing",
              original := [], wasFrozen := false })

/-- Data.from_dict (data.py lines 285-288): cls(data) with all
constructor arguments at their defaults (frozen=False, auto_cast=True,
strict_typing=True). -/
def fromDict (st : Store) (clsMeta : List (String × Val))
    (data : List (String × Val)) : Except PyErr (Store × DataObj) :=
  mkData st clsMeta data [] false true true

/-- The constructor parameter names of Data.__init__ that are captured
by keyword binding when copy() splats the content mapping. -/
def specialKeys : List String :=
  ["value", "frozen", "include_methods", "auto_cast", "strict_typing"]

/-- Data.copy (data.py lines 281-283): type(self)(**content.copy()).
Splatting binds any content entry named like a constructor parameter
to that parameter (a key named self is a TypeError outright); the
remaining entries arrive as keyword arguments, which means Field
objects are passed through the keyword loop and never copied. -/
def copyData (st : Store) (clsMeta : List (String × Val)) (d : DataObj) :
    Except PyErr (Store × DataObj) :=
  let kw := d.content
  if hasKeyB kw "self" then .error .typeError
  else
    let fz := pyTruthy ((alook kw "frozen").getD (.vBool false))
    let ac := match alook kw "auto_cast" with
      | none => true
      | some v => pyTruthy v
    let stp := match alook kw "strict_typing" with
      | none => true
      | some v => pyTruthy v
    let rest := kw.filter (fun p => decide (p.1 ∉ specialKeys))
    match alook kw "value" with
    | none => mkData st clsMeta [] rest fz ac stp
    | some v =>
        if pyTruthy v then .error .attributeError
        else mkData st clsMeta [] rest fz ac stp

/-- FrozenData.__init__ (data.py lines 467-468): the base constructor
with frozen=True; auto_cast and strict_typing keep their defaults. -/
def mkFrozenData (st : Store) (clsMeta : List (String × Val))
    (value : List (String × Val)) (kwargs : List (String × Val)) :
    Except PyErr (Store × DataObj) :=
  mkData st clsMeta value kwargs true true true

/-- _Dataclass.__init__ (factory.py lines 10-33): harvested class
attributes updated by the keywords become the source mapping for the
base constructor (all flag arguments at their defaults); the harvested
annotations are installed afterwards, and then the instance is
validated, so a strict-typing mismatch raises out of construction. -/
def mkDataclass (fuel : Nat) (st : Store) (clsMeta : List (String × Val))
    (classAttrs : List (String × Val)) (classAnns : List (String × Ty))
    (kwargs : List (String × Val)) : Option (Except PyErr (Store × DataObj)) :=
  let ic := kwargs.foldl (fun acc p => aset acc p.1 p.2) classAttrs
  match mkData st clsMeta ic [] false true true with
  | .error e => some (.error e)
  | .ok (st1, d1) =>
      let d2 := { d1 with annotations := classAnns }
      match raiseTypingError fuel st1 d2 with
      | none => none
      | some (_, some e) => some (.error e)
      | some (st2, none) => some (.ok (st2, d2))

/-! FrozenData overrides (data.py lines 470-480): every mutating entry
point either raises the read-only AttributeError or silently returns
without touching any state. -/

def fzSetitem (st : Store) (d : DataObj) (_k : String) (_v : Val) : OpRes :=
  ⟨st, d, some .attributeErrorReadOnly⟩

def fzSetattr (st : Store) (d : DataObj) (_k : String) (_v : Val) : OpRes :=
  ⟨st, d, some .attributeErrorReadOnly⟩

def fzDelitem (st : Store) (d : DataObj) (_k : String) : OpRes := ⟨st, d, none⟩

def fzPop (st : Store) (d : DataObj) (_k : String) (_dflt : Val) : OpRes :=
  ⟨st, d, none⟩

def fzUpdate (st : Store) (d : DataObj) (_pairs : List (String × Val)) : OpRes :=
  ⟨st, d, none⟩

def fzClear (st : Store) (d : DataObj) : OpRes := ⟨st, d, none⟩

def fzSetdefault (st : Store) (d : DataObj) (_k : String) (_dflt : Val) : OpRes :=
  ⟨st, d, none⟩

def fzEnter (st : Store) (d : DataObj) : OpRes := ⟨st, d, none⟩

def fzExit (st : Store) (d : DataObj) (_exc : Bool) : OpRes := ⟨st, d, none⟩

/-- The field-registry invariant claimed for Data: the key set of
__fields__ is exactly the set of content keys whose stored value is a
Field object. -/
def isFieldAtB (content : List (String × Val)) (k : String) : Bool :=
  match alook content k with
  | some (.vField _) => true
  | _ => false

def Inv (d : DataObj) : Prop :=
  ∀ k : String, hasKeyB d.fields k = isFieldAtB d.content k

/-- Whether a stored value is a Field object. -/
def isFieldVal : Val → Bool
  | .vField _ => true
  | _ => false

/-- No field reference reachable from the content mapping is a
ComputedField. -/
def noComputedIn (st : Store) (content : List (String × Val)) : Prop :=
  ∀ k r, alook content k = some (.vField r) → (findF st r).isComputed = false

/-- The annotated-and-present keys whose stored value fails the check,
in annotation order: the expected output of one full validation pass
over a container without computed fields. -/
def incorrectKeysNC (st : Store) (content : List (String × Val))
    (anns : List (String × Ty)) : List String :=
  anns.filterMap (fun p =>
    match alook content p.1 with
    | some v => if checkTypeNC st v p.2 then none else some p.1
    | none => none)

/-- The write precondition under which the field-registry invariant is
preserved by __setitem__: either a Field object is being stored, or
the existing slot is not a ComputedField. -/
def GoodW (st : Store) (d : DataObj) (k : String) (u : Val) : Prop :=
  isFieldVal u = true ∨
    (∀ r, alook d.content k = some (.vField r) → (findF st r).isComputed = false)

/-! ### Basic lemmas about the association-list model -/

theorem alook_aset_self {κ α : Type} [DecidableEq κ]
    (l : List (κ × α)) (k : κ) (v : α) : alook (aset l k v) k = some v := by
  induction l with
  | nil => simp [aset, alook]
  | cons p rest ih =>
    obtain ⟨ka, va⟩ := p
    by_cases hp : ka = k
    · subst hp
      simp [aset, alook]
    · simp [aset, hp, alook, ih]

theorem alook_aset_ne {κ α : Type} [DecidableEq κ]
    (l : List (κ × α)) (k k' : κ) (v : α) (h : k' ≠ k) :
    alook (aset l k v) k' = alook l k' := by
  induction l with
  | nil => simp [aset, alook, Ne.symm h]
  | cons p rest ih =>
    obtain ⟨ka, va⟩ := p
    by_cases hp : ka = k
    · subst hp
      simp [aset, alook, Ne.symm h]
    · simp [aset, hp, alook, ih]

theorem alook_adel_self {κ α : Type} [DecidableEq κ]
    (l : List (κ × α)) (k : κ) : alook (adel l k) k = none := by
  induction l with
  | nil => simp [adel, alook]
  | cons p rest ih =>
    obtain ⟨ka, va⟩ := p
    by_cases hp : ka = k
    · simp [adel, hp, ih]
    · simp [adel, hp, alook, ih]

theorem alook_adel_ne {κ α : Type} [DecidableEq κ]
    (l : List (κ × α)) (k k' : κ) (h : k' ≠ k) :
    alook (adel l k) k' = alook l k' := by
  induction l with
  | nil => simp [adel]
  | cons p rest ih =>
    obtain ⟨ka, va⟩ := p
    by_cases hp : ka = k
    · subst hp
      simp [adel, alook, Ne.symm h, ih]
    · simp [adel, hp, alook, ih]

theorem alook_append {κ α : Type} [DecidableEq κ]
    (l1 l2 : List (κ × α)) (k : κ) :
    alook (l1 ++ l2) k =
      match alook l1 k with
      | some v => some v
      | none => alook l2 k := by
  induction l1 with
  | nil => simp [alook]
  | cons p rest ih =>
    obtain ⟨ka, va⟩ := p
    by_cases hp : ka = k
    · simp [alook, hp]
    · simp [alook, hp, ih]

theorem alook_none_of_fresh {κ α : Type} [DecidableEq κ]
    (l : List (κ × α)) (k : κ) (h : ∀ p ∈ l, p.1 ≠ k) : alook l k = none := by
  induction l with
  | nil => rfl
  | cons p rest ih =>
    obtain ⟨ka, va⟩ := p
    have hka : ka ≠ k := h (ka, va) (by simp)
    simp [alook, hka]
    exact ih (fun q hq => h q (by simp [hq]))

theorem aset_fresh {κ α : Type} [DecidableEq κ]
    (l : List (κ × α)) (k : κ) (v : α) (h : alook l k = none) :
    aset l k v = l ++ [(k, v)] := by
  induction l with
  | nil => simp [aset]
  | cons p rest ih =>
    obtain ⟨ka, va⟩ := p
    by_cases hp : ka = k
    · simp [alook, hp] at h
    · simp [alook, hp] at h
      simp [aset, hp, ih h]

/-- Folding Python-dict insertion of pairwise-fresh entries onto an
accumulator appends them in order. -/
theorem foldl_aset_fresh {κ α : Type} [DecidableEq κ] :
    ∀ (l acc : List (κ × α)), (∀ p ∈ l, alook acc p.1 = none) →
      (l.map Prod.fst).Nodup →
      l.foldl (fun a p => aset a p.1 p.2) acc = acc ++ l := by
  intro l
  induction l with
  | nil => intro acc _ _; simp
  | cons p rest ih =>
    intro acc hfresh hnd
    obtain ⟨ka, va⟩ := p
    have h1 : alook acc ka = none := hfresh (ka, va) (by simp)
    have hset : aset acc ka va = acc ++ [(ka, va)] := aset_fresh acc ka va h1
    have hnd' : (rest.map Prod.fst).Nodup := (List.nodup_cons.mp hnd).2
    have hka : ka ∉ rest.map Prod.fst := (List.nodup_cons.mp hnd).1
    have hfresh' : ∀ q ∈ rest, alook (acc ++ [(ka, va)]) q.1 = none := by
      intro q hq
      have hq1 : alook acc q.1 = none := hfresh q (by simp [hq])
      have hq2 : q.1 ≠ ka := by
        intro he
        exact hka (he ▸ List.mem_map_of_mem Prod.fst hq)
      rw [alook_append, hq1]
      simp [alook, Ne.symm hq2]
    calc List.foldl (fun a p => aset a p.1 p.2) acc ((ka, va) :: rest)
        = List.foldl (fun a p => aset a p.1 p.2) (acc ++ [(ka, va)]) rest := by
          simp [hset]
      _ = (acc ++ [(ka, va)]) ++ rest := ih (acc ++ [(ka, va)]) hfresh' hnd'
      _ = acc ++ ((ka, va) :: rest) := by simp

/-! ### Claim theorems -/

/-- C1: the claim says a plain write to any unannotated key of a
non-frozen container followed by a read returns the written value.  On
the code this fails for a fresh key: Data() is a non-frozen empty
container, and d["x"] = 1 evaluates content["x"] inside the elif of
__setitem__ (data.py line 431), raising KeyError before anything is
stored, so the subsequent read also fails; attribute assignment takes
the same path.  This theorem evaluates the model at that failing
input. -/
theorem C1_fresh_write_keyerror :
    mkData ⟨[], 0⟩ [] [] [] false true true =
      .ok (⟨[], 0⟩, ⟨[], [], [], false, true, true, [], false⟩) ∧
    setitem 1 ⟨[], 0⟩ ⟨[], [], [], false, true, true, [], false⟩ "x" (.vInt 1) =
      some ⟨⟨[], 0⟩, ⟨[], [], [], false, true, true, [], false⟩, some .keyError⟩ ∧
    setattrOp 1 ⟨[], 0⟩ ⟨[], [], [], false, true, true, [], false⟩ "x" (.vInt 1) =
      some ⟨⟨[], 0⟩, ⟨[], [], [], false, true, true, [], false⟩, some .keyError⟩ ∧
    getitem 1 ⟨[], 0⟩ ⟨[], [], [], false, true, true, [], false⟩ "x" =
      some (⟨[], 0⟩, .error .keyError) := by
  refine ⟨rfl, rfl, rfl, rfl⟩

/-- C2: on a frozen container every mutation entry point of Data
leaves the heap, the container state, in particular the content
mapping, completely unchanged, and the FrozenData overrides either
raise the read-only AttributeError or return without touching
anything. -/
theorem C2_frozen_no_mutation
    (fuel : Nat) (st : Store) (d : DataObj) (k : String) (v dflt : Val)
    (pairs : List (String × Val)) (exc : Bool) (h : d.frozen = true) :
    setitem fuel st d k v = some ⟨st, d, none⟩ ∧
    setattrOp fuel st d k v = some ⟨st, d, none⟩ ∧
    delitem st d k = ⟨st, d, none⟩ ∧
    popOp fuel st d k dflt = some (⟨st, d, none⟩, (alook d.content k).getD dflt) ∧
    updateOp fuel st d pairs = some ⟨st, d, none⟩ ∧
    clearOp st d = ⟨st, d, none⟩ ∧
    setdefault fuel st d k dflt =
      some (⟨st, d, none⟩, some ((alook d.content k).getD dflt)) ∧
    fzSetitem st d k v = ⟨st, d, some .attributeErrorReadOnly⟩ ∧
    fzSetattr st d k v = ⟨st, d, some .attributeErrorReadOnly⟩ ∧
    fzDelitem st d k = ⟨st, d, none⟩ ∧
    fzPop st d k dflt = ⟨st, d, none⟩ ∧
    fzUpdate st d pairs = ⟨st, d, none⟩ ∧
    fzClear st d = ⟨st, d, none⟩ ∧
    fzSetdefault st d k dflt = ⟨st, d, none⟩ ∧
    fzEnter st d = ⟨st, d, none⟩ ∧
    fzExit st d exc = ⟨st, d, none⟩ := by
  refine ⟨?_, ?_, ?_, ?_, ?_, ?_, ?_, rfl, rfl, rfl, rfl, rfl, rfl, rfl, rfl, rfl⟩
  · simp [setitem, h]
  · simp [setattrOp, setitem, h]
  · simp [delitem, h]
  · simp [popOp, h]
  · simp [updateOp, h]
  · simp [clearOp, h]
  · simp [setdefault, h]

/-- Witness for C2 at a concrete frozen container. -/
theorem C2_frozen_no_mutation_witness :
    let stW : Store := ⟨[], 0⟩
    let dW : DataObj := ⟨[("a", .vInt 3)], [], [], true, true, true, [], false⟩
    setitem 1 stW dW "a" (.vInt 7) = some ⟨stW, dW, none⟩ ∧
    setattrOp 1 stW dW "a" (.vInt 7) = some ⟨stW, dW, none⟩ ∧
    delitem stW dW "a" = ⟨stW, dW, none⟩ ∧
    popOp 1 stW dW "a" .vNone = some (⟨stW, dW, none⟩, .vInt 3) ∧
    updateOp 1 stW dW [("b", .vInt 1)] = some ⟨stW, dW, none⟩ ∧
    clearOp stW dW = ⟨stW, dW, none⟩ ∧
    setdefault 1 stW dW "a" .vNone = some (⟨stW, dW, none⟩, some (.vInt 3)) ∧
    fzSetitem stW dW "a" (.vInt 7) = ⟨stW, dW, some .attributeErrorReadOnly⟩ ∧
    fzSetattr stW dW "a" (.vInt 7) = ⟨stW, dW, some .attributeErrorReadOnly⟩ ∧
    fzDelitem stW dW "a" = ⟨stW, dW, none⟩ ∧
    fzPop stW dW "a" .vNone = ⟨stW, dW, none⟩ ∧
    fzUpdate stW dW [("b", .vInt 1)] = ⟨stW, dW, none⟩ ∧
    fzClear stW dW = ⟨stW, dW, none⟩ ∧
    fzSetdefault stW dW "a" .vNone = ⟨stW, dW, none⟩ ∧
    fzEnter stW dW = ⟨stW, dW, none⟩ ∧
    fzExit stW dW true = ⟨stW, dW, none⟩ :=
  C2_frozen_no_mutation 1 ⟨[], 0⟩ ⟨[("a", .vInt 3)], [], [], true, true, true, [], false⟩
    "a" (.vInt 7) .vNone [("b", .vInt 1)] true rfl

theorem alook_foldl_aset {κ α : Type} [DecidableEq κ] :
    ∀ (l acc : List (κ × α)) (k : κ), (l.map Prod.fst).Nodup →
      alook (l.foldl (fun a p => aset a p.1 p.2) acc) k =
        match alook l k with
        | some v => some v
        | none => alook acc k := by
  intro l
  induction l with
  | nil => intro acc k _; simp [alook]
  | cons p rest ih =>
    intro acc k hnd
    obtain ⟨ka, va⟩ := p
    have hka : ka ∉ rest.map Prod.fst := (List.nodup_cons.mp hnd).1
    have hnd' : (rest.map Prod.fst).Nodup := (List.nodup_cons.mp hnd).2
    by_cases hk : ka = k
    · subst hk
      have hnone : alook rest ka = none := by
        apply alook_none_of_fresh
        intro q hq he
        exact hka (he ▸ List.mem_map_of_mem Prod.fst hq)
      simp only [List.foldl_cons, alook, if_pos rfl]
      rw [ih (aset acc ka va) ka hnd', hnone, alook_aset_self]
      simp
    · simp only [List.foldl_cons, alook, if_neg hk]
      rw [ih (aset acc ka va) k hnd', alook_aset_ne acc ka k va (Ne.symm hk)]

/-- In the merged meta config, an instance __meta_config__ entry
overrides the class-level entry of the same name. -/
theorem metaFlag_merge_instance_wins
    (c i : List (String × Val)) (name : String) (w : Val)
    (hnd : (i.map Prod.fst).Nodup) (h : alook i name = some w) :
    metaFlag (mergeMeta c i) name = pyTruthy w := by
  unfold metaFlag mergeMeta
  rw [alook_foldl_aset i _ name hnd, h]
  simp

/-- C4 counterexample: the claim says an explicit frozen=False
constructor argument wins over a class-level frozen=True
configuration.  On the code the flag is the Python expression
`frozen or self.meta.get("frozen", False)`, so the explicit False
defers to the configuration and the instance comes out frozen. -/
theorem C4_counterexample :
    mkData ⟨[], 0⟩ [("frozen", .vBool true)] [] [] false true true =
      .ok (⟨[], 0⟩, ⟨[], [], [], true, true, true, [], false⟩) ∧
    (⟨[], [], [], true, true, true, [], false⟩ : DataObj).frozen ≠ false := by
  exact ⟨rfl, by decide⟩

/-- C4 as amended: each behavioural flag of a constructed Data is the
Python or of the explicit constructor argument with the merged meta
config entry (class config overridden by the instance __meta_config__
entry, then read through truthiness with default False).  An explicit
True always wins; an explicit False defers to the merged config; and
within the merge the instance entry overrides the class entry. -/
theorem C4_flag_resolution
    (st : Store) (clsMeta value kwargs : List (String × Val))
    (fa aa sa : Bool) (st2 : Store) (d : DataObj)
    (h : mkData st clsMeta value kwargs fa aa sa = .ok (st2, d)) :
    (∃ im, instMetaOf d.content = .ok im ∧
      d.frozen = (fa || metaFlag (mergeMeta clsMeta im) "frozen") ∧
      d.autoCast = (aa || metaFlag (mergeMeta clsMeta im) "auto_cast") ∧
      d.strictTyping = (sa || metaFlag (mergeMeta clsMeta im) "strict_typing")) ∧
    (fa = true → d.frozen = true) ∧
    (aa = true → d.autoCast = true) ∧
    (sa = true → d.strictTyping = true) ∧
    (∀ (c i : List (String × Val)) (name : String) (w : Val),
      (i.map Prod.fst).Nodup → alook i name = some w →
      metaFlag (mergeMeta c i) name = pyTruthy w) := by
  unfold mkData at h
  cases hp : prepLoop st [] value with
  | error e => rw [hp] at h; exact absurd h (by simp)
  | ok pr =>
    obtain ⟨st1, prep1⟩ := pr
    rw [hp] at h
    simp only at h
    cases hkw : kwLoop st1 prep1 kwargs with
    | mk st2' prep2 =>
      rw [hkw] at h
      simp only at h
      cases hm : instMetaOf prep2 with
      | error e => rw [hm] at h; exact absurd h (by simp)
      | ok im =>
        rw [hm] at h
        simp only [Except.ok.injEq, Prod.mk.injEq] at h
        obtain ⟨hst, hd⟩ := h
        subst hd
        refine ⟨⟨im, by simpa using hm, rfl, rfl, rfl⟩, ?_, ?_, ?_, ?_⟩
        · intro hfa; simp [hfa]
        · intro haa; simp [haa]
        · intro hsa; simp [hsa]
        · intro c i name w hnd hl
          exact metaFlag_merge_instance_wins c i name w hnd hl

/-- Witness for C4 at a concrete construction: explicit frozen=False
and strict_typing=False with class config frozen=True and an instance
content carrying no meta entry. -/
theorem C4_flag_resolution_witness :
    (∃ im, instMetaOf (([("x", .vInt 1)]) : List (String × Val)) = .ok im ∧
      ((⟨[("x", .vInt 1)], [], [], true, true, false, [], false⟩ : DataObj).frozen =
        (false || metaFlag (mergeMeta [("frozen", .vBool true)] im) "frozen")) ∧
      ((⟨[("x", .vInt 1)], [], [], true, true, false, [], false⟩ : DataObj).autoCast =
        (true || metaFlag (mergeMeta [("frozen", .vBool true)] im) "auto_cast")) ∧
      ((⟨[("x", .vInt 1)], [], [], true, true, false, [], false⟩ : DataObj).strictTyping =
        (false || metaFlag (mergeMeta [("frozen", .vBool true)] im) "strict_typing"))) ∧
    (false = true →
      (⟨[("x", .vInt 1)], [], [], true, true, false, [], false⟩ : DataObj).frozen = true) ∧
    (true = true →
      (⟨[("x", .vInt 1)], [], [], true, true, false, [], false⟩ : DataObj).autoCast = true) ∧
    (false = true →
      (⟨[("x", .vInt 1)], [], [], true, true, false, [], false⟩ : DataObj).strictTyping = true) ∧
    (∀ (c i : List (String × Val)) (name : String) (w : Val),
      (i.map Prod.fst).Nodup → alook i name = some w →
      metaFlag (mergeMeta c i) name = pyTruthy w) :=
  C4_flag_resolution ⟨[], 0⟩ [("frozen", .vBool true)] [] [("x", .vInt 1)]
    false true false ⟨[], 0⟩ ⟨[("x", .vInt 1)], [], [], true, true, false, [], false⟩ rfl

/-- C6 counterexample: the claim says that constructing the
factory-declared container with auto_cast=True and age="42" yields
read("age") == 42.  On the code auto-casting runs only inside
__setitem__, never at construction, and _Dataclass.__init__ validates
the instance after installing the annotations, so this construction
raises the batched type error naming age; no instance (and no read)
exists. -/
theorem C6_counterexample :
    mkDataclass 3 ⟨[], 0⟩ [] [] [("age", .tInt)]
      [("age", .vStr "42"), ("auto_cast", .vBool true)] =
      some (.error (.typeMismatch ["age"])) := by
  rfl

/-- C6 as amended: for a factory-declared container with annotation
age:int, construction with age="not a number" (strict typing) raises
a type mismatch naming age, construction with auto_cast=True and
age="42" also raises the same mismatch (auto-casting does not apply at
construction), while a post-construction write of "42" through
__setitem__ is coerced so that the subsequent read returns the integer
42. -/
theorem C6_factory_typing :
    mkDataclass 3 ⟨[], 0⟩ [] [] [("age", .tInt)]
      [("age", .vStr "not a number"), ("strict_typing", .vBool true)] =
      some (.error (.typeMismatch ["age"])) ∧
    mkDataclass 3 ⟨[], 0⟩ [] [] [("age", .tInt)]
      [("age", .vStr "42"), ("auto_cast", .vBool true)] =
      some (.error (.typeMismatch ["age"])) ∧
    mkDataclass 3 ⟨[], 0⟩ [] [("age", .vInt 0)] [("age", .tInt)] [] =
      some (.ok (⟨[], 0⟩,
        ⟨[("age", .vInt 0)], [("age", .tInt)], [], false, true, true, [], false⟩)) ∧
    setitem 3 ⟨[], 0⟩
      ⟨[("age", .vInt 0)], [("age", .tInt)], [], false, true, true, [], false⟩
      "age" (.vStr "42") =
      some ⟨⟨[], 0⟩,
        ⟨[("age", .vInt 42)], [("age", .tInt)], [], false, true, true, [], false⟩,
        none⟩ ∧
    getitem 1 ⟨[], 0⟩
      ⟨[("age", .vInt 42)], [("age", .tInt)], [], false, true, true, [], false⟩
      "age" = some (⟨[], 0⟩, .ok (.vInt 42)) := by
  refine ⟨rfl, rfl, rfl, rfl, rfl⟩

theorem prepLoop_nofield :
    ∀ (l : List (String × Val)) (st : Store) (acc : List (String × Val)),
      (∀ p ∈ l, isFieldVal p.2 = false) →
      prepLoop st acc l = .ok (st, l.foldl (fun a p => aset a p.1 p.2) acc) := by
  intro l
  induction l with
  | nil => intro st acc _; rfl
  | cons p rest ih =>
    intro st acc hnf
    obtain ⟨ka, va⟩ := p
    have hva : isFieldVal va = false := hnf (ka, va) (by simp)
    have hrest : ∀ q ∈ rest, isFieldVal q.2 = false :=
      fun q hq => hnf q (by simp [hq])
    cases va with
    | vField r => simp [isFieldVal] at hva
    | vInt n => simp only [prepLoop, List.foldl_cons]; exact ih st (aset acc ka (.vInt n)) hrest
    | vStr s => simp only [prepLoop, List.foldl_cons]; exact ih st (aset acc ka (.vStr s)) hrest
    | vBool b => simp only [prepLoop, List.foldl_cons]; exact ih st (aset acc ka (.vBool b)) hrest
    | vNone => simp only [prepLoop, List.foldl_cons]; exact ih st (aset acc ka .vNone) hrest

theorem fieldsOf_nofield (l : List (String × Val))
    (hnf : ∀ p ∈ l, isFieldVal p.2 = false) : fieldsOf l = [] := by
  induction l with
  | nil => rfl
  | cons p rest ih =>
    obtain ⟨ka, va⟩ := p
    have hva : isFieldVal va = false := hnf (ka, va) (by simp)
    have hrest : ∀ q ∈ rest, isFieldVal q.2 = false :=
      fun q hq => hnf q (by simp [hq])
    cases va with
    | vField r => simp [isFieldVal] at hva
    | vInt n => simpa [fieldsOf] using ih hrest
    | vStr s => simpa [fieldsOf] using ih hrest
    | vBool b => simpa [fieldsOf] using ih hrest
    | vNone => simpa [fieldsOf] using ih hrest

theorem resolveValue_nofield (fuel : Nat) (st : Store) (d : DataObj) (v : Val)
    (hv : isFieldVal v = false) (hfuel : 1 ≤ fuel) :
    resolveValue fuel st d v = some (st, .ok v) := by
  obtain ⟨m, rfl⟩ : ∃ m, fuel = m + 1 := by
    cases fuel with
    | zero => omega
    | succ m => exact ⟨m, rfl⟩
  cases v with
  | vField r => simp [isFieldVal] at hv
  | vInt n => rfl
  | vStr s => rfl
  | vBool b => rfl
  | vNone => rfl

theorem getContentAux_nofield :
    ∀ (l : List (String × Val)) (fuel : Nat) (st : Store) (d : DataObj),
      (∀ p ∈ l, isFieldVal p.2 = false) → 1 ≤ fuel →
      getContentAux fuel st d l = some (st, .ok l) := by
  intro l
  induction l with
  | nil => intro fuel st d _ _; rfl
  | cons p rest ih =>
    intro fuel st d hnf hfuel
    obtain ⟨ka, va⟩ := p
    have hva : isFieldVal va = false := hnf (ka, va) (by simp)
    have hrest : ∀ q ∈ rest, isFieldVal q.2 = false :=
      fun q hq => hnf q (by simp [hq])
    simp only [getContentAux]
    rw [resolveValue_nofield fuel st d va hva hfuel]
    simp only []
    rw [ih fuel st d hrest hfuel]

/-- C8 counterexample: the claim quantifies over every plain mapping
of JSON-primitive values; for d = {"__meta_config__": 1} the
constructor feeds the scalar into dict.update inside the meta
property, which raises TypeError, so from_dict(d) produces no
container at all and the round-trip fails. -/
theorem C8_counterexample :
    fromDict ⟨[], 0⟩ [] [("__meta_config__", .vInt 1)] = .error .typeError := by
  rfl

/-- C8 as amended: for every mapping of JSON-primitive (non-Field)
values with unique keys that does not use the reserved key
__meta_config__, from_dict builds a non-frozen container with exactly
that content, and to_dict returns it unchanged. -/
theorem C8_roundtrip (st : Store) (d : List (String × Val)) (fuel : Nat)
    (hnd : (d.map Prod.fst).Nodup)
    (hnf : ∀ p ∈ d, isFieldVal p.2 = false)
    (hmc : alook d "__meta_config__" = none)
    (hfuel : 1 ≤ fuel) :
    fromDict st [] d = .ok (st, ⟨d, [], [], false, true, true, [], false⟩) ∧
    toDict fuel st ⟨d, [], [], false, true, true, [], false⟩ =
      some (st, .ok (.inr d)) := by
  constructor
  · unfold fromDict mkData
    rw [prepLoop_nofield d st [] hnf]
    simp only []
    rw [foldl_aset_fresh d [] (fun p _ => rfl) hnd]
    simp only [List.nil_append, kwLoop]
    unfold instMetaOf
    rw [hmc]
    simp only []
    rw [fieldsOf_nofield d hnf]
    rfl
  · unfold toDict
    rw [getContentAux_nofield d fuel st _ hnf hfuel]
    rfl

/-- Witness for C8 at a concrete two-key mapping. -/
theorem C8_roundtrip_witness :
    fromDict ⟨[], 0⟩ [] [("a", .vInt 1), ("b", .vStr "x")] =
      .ok (⟨[], 0⟩,
        ⟨[("a", .vInt 1), ("b", .vStr "x")], [], [], false, true, true, [], false⟩) ∧
    toDict 1 ⟨[], 0⟩
      ⟨[("a", .vInt 1), ("b", .vStr "x")], [], [], false, true, true, [], false⟩ =
      some (⟨[], 0⟩, .ok (.inr [("a", .vInt 1), ("b", .vStr "x")])) :=
  C8_roundtrip ⟨[], 0⟩ [("a", .vInt 1), ("b", .vStr "x")] 1
    (by decide) (by decide) (by decide) (by decide)

/-! ### Heap lemmas -/

theorem alook_map_upd (l : List (Nat × FieldObj)) (r q : Nat)
    (g : FieldObj → FieldObj) :
    alook (l.map fun p => if p.1 = r then (p.1, g p.2) else p) q =
      if q = r then (alook l q).map g else alook l q := by
  induction l with
  | nil => by_cases h : q = r <;> simp [alook, h]
  | cons p rest ih =>
    obtain ⟨ka, va⟩ := p
    simp only [List.map_cons]
    by_cases hk : ka = r
    · simp only [if_pos hk]
      by_cases hq : ka = q
      · subst hq
        simp [alook, hk]
      · simp [alook, hq, ih]
    · simp only [if_neg hk]
      by_cases hq : ka = q
      · subst hq
        simp [alook, hk]
      · simp [alook, hq, ih]

theorem findF_updF_ne (st : Store) (r q : Nat) (g : FieldObj → FieldObj)
    (h : q ≠ r) : findF (updF st r g) q = findF st q := by
  unfold findF updF
  simp only [alook_map_upd, if_neg h]

theorem findF_updF_self (st : Store) (r : Nat) (g : FieldObj → FieldObj)
    (h : (alook st.heap r).isSome) : findF (updF st r g) r = g (findF st r) := by
  unfold findF updF
  rw [alook_map_upd]
  simp only [if_pos rfl]
  cases hl : alook st.heap r with
  | none => rw [hl] at h; simp at h
  | some obj => simp [hl]

theorem kwLoop_fresh :
    ∀ (l acc : List (String × Val)) (st : Store),
      (∀ p ∈ l, alook acc p.1 = none) → (l.map Prod.fst).Nodup →
      kwLoop st acc l = (st, acc ++ l) := by
  intro l
  induction l with
  | nil => intro acc st _ _; simp [kwLoop]
  | cons p rest ih =>
    intro acc st hfresh hnd
    obtain ⟨ka, va⟩ := p
    have h1 : alook acc ka = none := hfresh (ka, va) (by simp)
    have hset : aset acc ka va = acc ++ [(ka, va)] := aset_fresh acc ka va h1
    have hka : ka ∉ rest.map Prod.fst := (List.nodup_cons.mp hnd).1
    have hnd' : (rest.map Prod.fst).Nodup := (List.nodup_cons.mp hnd).2
    have hfresh' : ∀ q ∈ rest, alook (acc ++ [(ka, va)]) q.1 = none := by
      intro q hq
      have hq1 : alook acc q.1 = none := hfresh q (by simp [hq])
      have hq2 : q.1 ≠ ka := by
        intro he
        exact hka (he ▸ List.mem_map_of_mem Prod.fst hq)
      rw [alook_append, hq1]
      simp [alook, Ne.symm hq2]
    simp only [kwLoop, h1, hset]
    rw [ih (acc ++ [(ka, va)]) st hfresh' hnd']
    simp

/-- C3 counterexample: the claim says copy() yields an independent
Field object for a non-classfield Field.  In the code copy() splats
the content mapping as keyword arguments, which bypasses the
field-copying loop of __init__, so the copy holds the very same Field
object (here the copy is even equal to the original as a whole), and
writing 5 through the copy changes the value the original reads from 0
to 5. -/
theorem C3_counterexample :
    mkData ⟨[(0, ⟨false, .vInt 0, false, false, .vNone, .always, .const .vNone, false⟩)], 1⟩
      [] [] [("a", .vField 0)] false true true =
      .ok (⟨[(0, ⟨false, .vInt 0, false, false, .vNone, .always, .const .vNone, false⟩)], 1⟩,
        ⟨[("a", .vField 0)], [], [("a", 0)], false, true, true, [], false⟩) ∧
    getitem 1
      ⟨[(0, ⟨false, .vInt 0, false, false, .vNone, .always, .const .vNone, false⟩)], 1⟩
      ⟨[("a", .vField 0)], [], [("a", 0)], false, true, true, [], false⟩ "a" =
      some (⟨[(0, ⟨false, .vInt 0, false, false, .vNone, .always, .const .vNone, false⟩)], 1⟩,
        .ok (.vInt 0)) ∧
    copyData
      ⟨[(0, ⟨false, .vInt 0, false, false, .vNone, .always, .const .vNone, false⟩)], 1⟩
      [] ⟨[("a", .vField 0)], [], [("a", 0)], false, true, true, [], false⟩ =
      .ok (⟨[(0, ⟨false, .vInt 0, false, false, .vNone, .always, .const .vNone, false⟩)], 1⟩,
        ⟨[("a", .vField 0)], [], [("a", 0)], false, true, true, [], false⟩) ∧
    setitem 1
      ⟨[(0, ⟨false, .vInt 0, false, false, .vNone, .always, .const .vNone, false⟩)], 1⟩
      ⟨[("a", .vField 0)], [], [("a", 0)], false, true, true, [], false⟩ "a" (.vInt 5) =
      some ⟨⟨[(0, ⟨false, .vInt 0, false, false, .vInt 5, .always, .const .vNone, false⟩)], 1⟩,
        ⟨[("a", .vField 0)], [], [("a", 0)], false, true, true, [], false⟩, none⟩ ∧
    getitem 1
      ⟨[(0, ⟨false, .vInt 0, false, false, .vInt 5, .always, .const .vNone, false⟩)], 1⟩
      ⟨[("a", .vField 0)], [], [("a", 0)], false, true, true, [], false⟩ "a" =
      some (⟨[(0, ⟨false, .vInt 0, false, false, .vInt 5, .always, .const .vNone, false⟩)], 1⟩,
        .ok (.vInt 5)) := by
  refine ⟨rfl, rfl, rfl, rfl, rfl⟩

/-- C3 as amended: copy() of a plain-Data instance whose content keys
avoid the constructor parameter names reproduces the content mapping
with the very same Field references (Field objects are shared, not
independent); writing a plain value at such a key through the copy
mutates the shared Field object in the heap, and the original
container's subsequent read sees the new value. -/
theorem C3_copy_shares_fields
    (st : Store) (d : DataObj)
    (hnd : (d.content.map Prod.fst).Nodup)
    (hkeys : ∀ p ∈ d.content,
      p.1 ∉ specialKeys ∧ p.1 ≠ "self" ∧ p.1 ≠ "__meta_config__") :
    copyData st [] d =
      .ok (st, ⟨d.content, [], fieldsOf d.content, false, true, true, [], false⟩) ∧
    (∀ (k : String) (r : Nat) (w : Val) (fuel : Nat),
      alook d.content k = some (.vField r) →
      (findF st r).isComputed = false →
      isFieldVal w = false →
      setitem fuel st
        ⟨d.content, [], fieldsOf d.content, false, true, true, [], false⟩ k w =
        some ⟨setFVal st r w,
          ⟨d.content, [], fieldsOf d.content, false, true, true, [], false⟩, none⟩ ∧
      ((alook st.heap r).isSome →
        getitem 1 (setFVal st r w) d k =
          some (setFVal st r w, .ok (pyOr w (findF st r).default)))) := by
  have hkfresh : ∀ (name : String), name ∈ specialKeys ∨ name = "self" ∨
      name = "__meta_config__" → alook d.content name = none := by
    intro name hname
    apply alook_none_of_fresh
    intro p hp he
    obtain ⟨hs, hse, hmc⟩ := hkeys p hp
    rcases hname with h1 | h2 | h3
    · exact hs (he ▸ h1)
    · exact hse (he.trans h2)
    · exact hmc (he.trans h3)
  have hself : alook d.content "self" = none := hkfresh "self" (Or.inr (Or.inl rfl))
  have hfz : alook d.content "frozen" = none := hkfresh "frozen" (Or.inl (by simp [specialKeys]))
  have hac : alook d.content "auto_cast" = none := hkfresh "auto_cast" (Or.inl (by simp [specialKeys]))
  have hst : alook d.content "strict_typing" = none :=
    hkfresh "strict_typing" (Or.inl (by simp [specialKeys]))
  have hval : alook d.content "value" = none := hkfresh "value" (Or.inl (by simp [specialKeys]))
  have hmc : alook d.content "__meta_config__" = none :=
    hkfresh "__meta_config__" (Or.inr (Or.inr rfl))
  have hfilter : d.content.filter (fun p => decide (p.1 ∉ specialKeys)) = d.content := by
    apply List.filter_eq_self.mpr
    intro p hp
    simp [(hkeys p hp).1]
  constructor
  · unfold copyData
    simp only [hasKeyB, hself, Option.isSome_none, Bool.false_eq_true, if_false,
      hfz, hac, hst, hval, hfilter]
    unfold mkData
    rw [show prepLoop st [] [] = .ok (st, []) from rfl]
    simp only []
    rw [kwLoop_fresh d.content [] st (fun p _ => rfl) hnd]
    simp only [List.nil_append]
    unfold instMetaOf
    rw [hmc]
    rfl
  · intro k r w fuel hk hnc hw
    constructor
    · unfold setitem
      simp only [Bool.false_eq_true, if_false]
      unfold castStep
      simp only [alook, castStep]
      have : setitemPost fuel st
          ⟨d.content, [], fieldsOf d.content, false, true, true, [], false⟩ k w =
          some ⟨setFVal st r w,
            ⟨d.content, [], fieldsOf d.content, false, true, true, [], false⟩, none⟩ := by
        unfold setitemPost
        cases w with
        | vField s => simp [isFieldVal] at hw
        | vInt n => simp only [hk, hnc, Bool.false_eq_true, if_false]; rfl
        | vStr s => simp only [hk, hnc, Bool.false_eq_true, if_false]; rfl
        | vBool b => simp only [hk, hnc, Bool.false_eq_true, if_false]; rfl
        | vNone => simp only [hk, hnc, Bool.false_eq_true, if_false]; rfl
      simpa using this
    · intro hlive
      unfold getitem
      rw [hk]
      unfold resolveValue
      rw [show setFVal st r w = updF st r (fun o => { o with fvalue := w }) from rfl]
      rw [findF_updF_self st r _ hlive]
      simp [hnc]

/-- Witness for C3 at the concrete shared-field instance. -/
theorem C3_copy_shares_fields_witness :
    copyData ⟨[(0, ⟨false, .vInt 0, false, false, .vNone, .always, .const .vNone, false⟩)], 1⟩
      [] ⟨[("a", .vField 0)], [], [("a", 0)], false, true, true, [], false⟩ =
      .ok (⟨[(0, ⟨false, .vInt 0, false, false, .vNone, .always, .const .vNone, false⟩)], 1⟩,
        ⟨[("a", .vField 0)], [], fieldsOf [("a", .vField 0)], false, true, true, [], false⟩) ∧
    (setitem 1 ⟨[(0, ⟨false, .vInt 0, false, false, .vNone, .always, .const .vNone, false⟩)], 1⟩
        ⟨[("a", .vField 0)], [], fieldsOf [("a", .vField 0)], false, true, true, [], false⟩
        "a" (.vInt 5) =
      some ⟨setFVal ⟨[(0, ⟨false, .vInt 0, false, false, .vNone, .always, .const .vNone, false⟩)], 1⟩ 0 (.vInt 5),
        ⟨[("a", .vField 0)], [], fieldsOf [("a", .vField 0)], false, true, true, [], false⟩, none⟩) ∧
    getitem 1
      (setFVal ⟨[(0, ⟨false, .vInt 0, false, false, .vNone, .always, .const .vNone, false⟩)], 1⟩ 0 (.vInt 5))
      ⟨[("a", .vField 0)], [], [("a", 0)], false, true, true, [], false⟩ "a" =
      some (setFVal ⟨[(0, ⟨false, .vInt 0, false, false, .vNone, .always, .const .vNone, false⟩)], 1⟩ 0 (.vInt 5),
        .ok (pyOr (.vInt 5)
          (findF ⟨[(0, ⟨false, .vInt 0, false, false, .vNone, .always, .const .vNone, false⟩)], 1⟩ 0).default)) := by
  have h := C3_copy_shares_fields
    ⟨[(0, ⟨false, .vInt 0, false, false, .vNone, .always, .const .vNone, false⟩)], 1⟩
    ⟨[("a", .vField 0)], [], [("a", 0)], false, true, true, [], false⟩
    (by decide) (by decide)
  obtain ⟨h1, h2⟩ := h
  have h3 := h2 "a" 0 (.vInt 5) 1 (by decide) (by decide) (by decide)
  exact ⟨h1, h3.1, h3.2 (by decide)⟩

theorem findF_setRec_ne (st : Store) (r q : Nat) (b : Bool) (h : q ≠ r) :
    findF (setRec st r b) q = findF st q :=
  findF_updF_ne st r q _ h

theorem findF_setRec_self (st : Store) (r : Nat) (b : Bool)
    (h : (alook st.heap r).isSome) :
    findF (setRec st r b) r = { findF st r with recursion := b } :=
  findF_updF_self st r _ h

theorem findF_setFVal_ne (st : Store) (r q : Nat) (w : Val) (h : q ≠ r) :
    findF (setFVal st r w) q = findF st q :=
  findF_updF_ne st r q _ h

theorem findF_setFVal_self (st : Store) (r : Nat) (w : Val)
    (h : (alook st.heap r).isSome) :
    findF (setFVal st r w) r = { findF st r with fvalue := w } :=
  findF_updF_self st r _ h

theorem live_of_isComputed (st : Store) (r : Nat)
    (h : (findF st r).isComputed = true) : (alook st.heap r).isSome := by
  unfold findF at h
  cases hl : alook st.heap r with
  | none => rw [hl] at h; simp at h
  | some obj => simp

theorem live_updF (st : Store) (r : Nat) (g : FieldObj → FieldObj)
    (h : (alook st.heap r).isSome) : (alook (updF st r g).heap r).isSome := by
  unfold updF
  simp only [alook_map_upd, if_pos rfl]
  cases hl : alook st.heap r with
  | none => rw [hl] at h; simp at h
  | some obj => simp

/-- C9: a ComputedField whose stored function reads the same computed
key of its own container: evaluation terminates for every fuel bound
of at least 5 with the same result (the guard cuts the recursion), the
outer evaluation completes with the re-entrant inner read contributing
None (so the overall read returns None here, since the method returns
exactly its self-read), and the heap is observationally restored; the
second conjunct exhibits the guard itself: with the recursion flag
set, the nested evaluation returns None immediately. -/
theorem C9_reentrancy_guard (st : Store) (d : DataObj) (k : String) (r : Nat)
    (fuel : Nat)
    (hk : alook d.content k = some (.vField r))
    (hc : (findF st r).isComputed = true)
    (hm : (findF st r).method = .readSelf k)
    (hr : (findF st r).recursion = false)
    (hfuel : 5 ≤ fuel) :
    (∃ st2, getitem fuel st d k = some (st2, .ok .vNone) ∧
      ∀ q, findF st2 q = findF st q) ∧
    (∀ f2, 1 ≤ f2 →
      cfValue f2 (setRec st r true) d r = some (setRec st r true, .ok .vNone)) := by
  have hlive : (alook st.heap r).isSome := live_of_isComputed st r hc
  have hst1 : findF (setRec st r true) r = { findF st r with recursion := true } :=
    findF_updF_self st r _ hlive
  have hnested : ∀ f2, 1 ≤ f2 →
      cfValue f2 (setRec st r true) d r = some (setRec st r true, .ok .vNone) := by
    intro f2 hf2
    obtain ⟨n, rfl⟩ : ∃ n, f2 = n + 1 := by
      cases f2 with
      | zero => omega
      | succ n => exact ⟨n, rfl⟩
    show cfValue (n + 1) (setRec st r true) d r = _
    unfold cfValue
    rw [hst1]
    rfl
  refine ⟨?_, hnested⟩
  obtain ⟨m, rfl⟩ : ∃ m, fuel = m + 5 := by
    obtain ⟨m, hm5⟩ := Nat.exists_eq_add_of_le hfuel
    exact ⟨m, by omega⟩
  have e1 : getitem (m + 5) st d k = resolveValue (m + 5) st d (.vField r) := by
    unfold getitem
    rw [hk]
  have e2 : resolveValue (m + 5) st d (.vField r) = cfValue (m + 4) st d r := by
    show resolveValue ((m + 4) + 1) st d (.vField r) = _
    unfold resolveValue
    rw [hc]
    rfl
  have e3 : cfValue (m + 4) st d r =
      match evalMethod (m + 3) (setRec st r true) d (.readSelf k) with
      | none => none
      | some (st2, .error e) => some (st2, .error e)
      | some (st2, .ok res) => some (setRec st2 r false, .ok res) := by
    show cfValue ((m + 3) + 1) st d r = _
    unfold cfValue
    rw [hr, hm]
    rfl
  have e4 : evalMethod (m + 3) (setRec st r true) d (.readSelf k) =
      resolveValue (m + 2) (setRec st r true) d (.vField r) := by
    show evalMethod ((m + 2) + 1) (setRec st r true) d (.readSelf k) = _
    unfold evalMethod
    rw [hk]
  have e5 : resolveValue (m + 2) (setRec st r true) d (.vField r) =
      cfValue (m + 1) (setRec st r true) d r := by
    show resolveValue ((m + 1) + 1) (setRec st r true) d (.vField r) = _
    unfold resolveValue
    rw [hst1]
    simp only [hc]
    rfl
  have e6 : cfValue (m + 1) (setRec st r true) d r =
      some (setRec st r true, .ok .vNone) := hnested (m + 1) (by omega)
  refine ⟨setRec (setRec st r true) r false, ?_, ?_⟩
  · rw [e1, e2, e3, e4, e5, e6]
  · intro q
    by_cases hq : q = r
    · subst hq
      have hlive1 : (alook (setRec st q true).heap q).isSome := live_updF st q _ hlive
      have h2 : findF (setRec (setRec st q true) q false) q =
          { findF (setRec st q true) q with recursion := false } :=
        findF_setRec_self (setRec st q true) q false hlive1
      rw [h2, hst1]
      rcases hobj : findF st q with ⟨a, b, c, d2, e, f, g, rec⟩
      rw [hobj] at hr
      simp only at hr
      simp [hr]
    · rw [findF_setRec_ne (setRec st r true) r q false hq, findF_setRec_ne st r q true hq]

/-- Witness for C9 at a concrete self-reading ComputedField. -/
theorem C9_reentrancy_guard_witness :
    getitem 5 ⟨[(0, ⟨true, .vNone, false, false, .vNone, .always, .readSelf "c", false⟩)], 1⟩
      ⟨[("c", .vField 0)], [], [("c", 0)], false, true, true, [], false⟩ "c" =
      some (⟨[(0, ⟨true, .vNone, false, false, .vNone, .always, .readSelf "c", false⟩)], 1⟩,
        .ok .vNone) ∧
    cfValue 1
      (setRec ⟨[(0, ⟨true, .vNone, false, false, .vNone, .always, .readSelf "c", false⟩)], 1⟩ 0 true)
      ⟨[("c", .vField 0)], [], [("c", 0)], false, true, true, [], false⟩ 0 =
      some (setRec ⟨[(0, ⟨true, .vNone, false, false, .vNone, .always, .readSelf "c", false⟩)], 1⟩ 0 true,
        .ok .vNone) := by
  have h := C9_reentrancy_guard
    ⟨[(0, ⟨true, .vNone, false, false, .vNone, .always, .readSelf "c", false⟩)], 1⟩
    ⟨[("c", .vField 0)], [], [("c", 0)], false, true, true, [], false⟩ "c" 0 5
    (by decide) (by decide) (by decide) (by decide) (by decide)
  refine ⟨?_, h.2 1 (by decide)⟩
  obtain ⟨st2, hg, hq⟩ := h.1
  have hcomp : getitem 5
      ⟨[(0, ⟨true, .vNone, false, false, .vNone, .always, .readSelf "c", false⟩)], 1⟩
      ⟨[("c", .vField 0)], [], [("c", 0)], false, true, true, [], false⟩ "c" =
      some (⟨[(0, ⟨true, .vNone, false, false, .vNone, .always, .readSelf "c", false⟩)], 1⟩,
        .ok .vNone) := rfl
  exact hcomp

/-! ### Validation lemmas -/

theorem alook_mem {κ α : Type} [DecidableEq κ] :
    ∀ (l : List (κ × α)) (k : κ) (v : α), alook l k = some v → (k, v) ∈ l := by
  intro l
  induction l with
  | nil => intro k v h; simp [alook] at h
  | cons p rest ih =>
    intro k v h
    obtain ⟨ka, va⟩ := p
    by_cases hk : ka = k
    · subst hk
      simp [alook] at h
      simp [h]
    · simp [alook, hk] at h
      simp [ih k v h]

theorem noComputedIn_of_nofield (st : Store) (content : List (String × Val))
    (h : ∀ p ∈ content, isFieldVal p.2 = false) : noComputedIn st content := by
  intro k r hk
  have hmem := alook_mem content k (.vField r) hk
  have := h (k, .vField r) hmem
  simp [isFieldVal] at this

theorem noComputedIn_aset (st : Store) (content : List (String × Val))
    (k : String) (v : Val) (hnc : noComputedIn st content)
    (hv : isFieldVal v = false) : noComputedIn st (aset content k v) := by
  intro j r hj
  by_cases hjk : j = k
  · subst hjk
    rw [alook_aset_self] at hj
    have hv2 : v = .vField r := Option.some.inj hj
    subst hv2
    simp [isFieldVal] at hv
  · rw [alook_aset_ne content k j v hjk] at hj
    exact hnc j r hj

theorem checkType_nc (fuel : Nat) (st : Store) (d : DataObj) (v : Val) (t : Ty)
    (hfuel : 1 ≤ fuel)
    (hv : ∀ r, v = .vField r → (findF st r).isComputed = false) :
    checkType fuel st d v t = some (st, .ok (checkTypeNC st v t)) := by
  cases fuel with
  | zero => omega
  | succ m =>
    cases v with
    | vField r =>
      have hr := hv r rfl
      by_cases h0 : (findF st r).fvalue = .vNone
      · by_cases hreq : (findF st r).required
        · simp [checkType, checkTypeNC, hr, h0, hreq]
        · simp [checkType, checkTypeNC, hr, h0, hreq]
      · simp [checkType, checkTypeNC, hr, h0]
    | vInt n => rfl
    | vStr s => rfl
    | vBool b => rfl
    | vNone => rfl

theorem gitAux_nc :
    ∀ (anns : List (String × Ty)) (fuel : Nat) (st : Store) (d : DataObj)
      (acc : List String),
      noComputedIn st d.content → 1 ≤ fuel →
      gitAux fuel st d anns acc =
        some (st, .ok (acc ++ incorrectKeysNC st d.content anns)) := by
  intro anns
  induction anns with
  | nil => intro fuel st d acc _ _; simp [gitAux, incorrectKeysNC]
  | cons p rest ih =>
    intro fuel st d acc hnc hfuel
    obtain ⟨k0, t0⟩ := p
    simp only [gitAux]
    cases hv : alook d.content k0 with
    | none =>
      dsimp only
      rw [ih fuel st d acc hnc hfuel]
      simp [incorrectKeysNC, hv]
    | some v0 =>
      have hvnc : ∀ r, v0 = .vField r → (findF st r).isComputed = false := by
        intro r hr
        exact hnc k0 r (hr ▸ hv)
      dsimp only
      rw [checkType_nc fuel st d v0 t0 hfuel hvnc]
      dsimp only
      by_cases hb : checkTypeNC st v0 t0
      · rw [if_pos hb, ih fuel st d acc hnc hfuel]
        simp [incorrectKeysNC, hv, hb]
      · rw [if_neg hb, ih fuel st d (acc ++ [k0]) hnc hfuel]
        simp only [Bool.not_eq_true] at hb
        simp [incorrectKeysNC, hv, hb]

theorem mem_incorrectKeysNC :
    ∀ (anns : List (String × Ty)) (st : Store) (content : List (String × Val))
      (k : String) (t : Ty) (v : Val),
      alook anns k = some t → alook content k = some v →
      checkTypeNC st v t = false → k ∈ incorrectKeysNC st content anns := by
  intro anns
  induction anns with
  | nil => intro st content k t v h; simp [alook] at h
  | cons p rest ih =>
    intro st content k t v ht hv hbad
    obtain ⟨k0, t0⟩ := p
    by_cases hk : k0 = k
    · subst hk
      simp [alook] at ht
      subst ht
      simp [incorrectKeysNC, hv, hbad]
    · simp only [alook, if_neg hk] at ht
      have := ih st content k t v ht hv hbad
      simp only [incorrectKeysNC, List.filterMap_cons] at this ⊢
      cases alook content k0 with
      | none => simpa using this
      | some v0 =>
        by_cases hb : checkTypeNC st v0 t0 <;> simp [hb, this]

theorem mem_rteAux (st : Store) :
    ∀ (fields : List (String × Nat)) (acc : List String) (k : String),
      k ∈ acc → k ∈ rteAux st fields acc := by
  intro fields
  induction fields with
  | nil => intro acc k h; simpa [rteAux] using h
  | cons p rest ih =>
    intro acc k h
    obtain ⟨name, r⟩ := p
    simp only [rteAux]
    by_cases hb : fieldBad (findF st r) && !(acc.contains name)
    · rw [if_pos hb]
      exact ih (acc ++ [name]) k (by simp [h])
    · rw [if_neg hb]
      exact ih acc k h

theorem rte_nc_char (fuel : Nat) (st : Store) (d : DataObj)
    (hnc : noComputedIn st d.content) (hfuel : 1 ≤ fuel) :
    raiseTypingError fuel st d = some (st, none) ∨
    ∃ l, raiseTypingError fuel st d = some (st, some (.typeMismatch l)) := by
  unfold raiseTypingError
  by_cases ha : d.annotations = []
  · left; simp [ha]
  · rw [if_neg ha]
    by_cases hs : d.strictTyping
    · rw [if_pos hs, gitAux_nc d.annotations fuel st d [] hnc hfuel]
      simp only [List.nil_append]
      by_cases hi : rteAux st d.fields (incorrectKeysNC st d.content d.annotations) = []
      · left; simp [hi]
      · right
        refine ⟨rteAux st d.fields (incorrectKeysNC st d.content d.annotations), ?_⟩
        simp [hi]
    · rw [if_neg hs]
      simp only []
      by_cases hi : rteAux st d.fields [] = []
      · left; simp [hi]
      · right
        refine ⟨rteAux st d.fields [], ?_⟩
        simp [hi]

/-- C5: one full validation pass batches every offending annotated
key: whenever an annotated key present in content fails its check (and
the container has no computed fields, so the pass is deterministic),
the single raised TypeError contains that key in its batched name
list; in particular two simultaneously mismatched keys are both
reported by one call. -/
theorem C5_validation_batches (fuel : Nat) (st : Store) (d : DataObj)
    (k : String) (t : Ty) (v : Val)
    (hfuel : 1 ≤ fuel) (hstrict : d.strictTyping = true)
    (hnc : noComputedIn st d.content)
    (ht : alook d.annotations k = some t) (hv : alook d.content k = some v)
    (hbad : checkTypeNC st v t = false) :
    ∃ l, raiseTypingError fuel st d = some (st, some (.typeMismatch l)) ∧ k ∈ l := by
  have hne : d.annotations ≠ [] := by
    intro h
    rw [h] at ht
    simp [alook] at ht
  have hmem : k ∈ incorrectKeysNC st d.content d.annotations :=
    mem_incorrectKeysNC d.annotations st d.content k t v ht hv hbad
  have hmem2 : k ∈ rteAux st d.fields (incorrectKeysNC st d.content d.annotations) :=
    mem_rteAux st d.fields _ k hmem
  have hne2 : rteAux st d.fields (incorrectKeysNC st d.content d.annotations) ≠ [] :=
    List.ne_nil_of_mem hmem2
  refine ⟨rteAux st d.fields (incorrectKeysNC st d.content d.annotations), ?_, hmem2⟩
  unfold raiseTypingError
  rw [if_neg hne, if_pos hstrict, gitAux_nc d.annotations fuel st d [] hnc hfuel]
  simp [hne2]

/-- Witness for C5: both of two simultaneously mismatched annotated
keys appear in the one batched failure. -/
theorem C5_validation_batches_witness :
    raiseTypingError 1 ⟨[], 0⟩
      ⟨[("a", .vStr "x"), ("b", .vStr "y")], [("a", .tInt), ("b", .tInt)],
        [], false, true, true, [], false⟩ =
      some (⟨[], 0⟩, some (.typeMismatch ["a", "b"])) ∧
    "a" ∈ (["a", "b"] : List String) ∧ "b" ∈ (["a", "b"] : List String) := by
  have hnc : noComputedIn ⟨[], 0⟩ [("a", .vStr "x"), ("b", .vStr "y")] :=
    noComputedIn_of_nofield _ _ (by decide)
  have ha := C5_validation_batches 1 ⟨[], 0⟩
    ⟨[("a", .vStr "x"), ("b", .vStr "y")], [("a", .tInt), ("b", .tInt)],
      [], false, true, true, [], false⟩
    "a" .tInt (.vStr "x") (by omega) rfl hnc rfl rfl rfl
  have hb := C5_validation_batches 1 ⟨[], 0⟩
    ⟨[("a", .vStr "x"), ("b", .vStr "y")], [("a", .tInt), ("b", .tInt)],
      [], false, true, true, [], false⟩
    "b" .tInt (.vStr "y") (by omega) rfl hnc rfl rfl rfl
  have hcomp : raiseTypingError 1 ⟨[], 0⟩
      ⟨[("a", .vStr "x"), ("b", .vStr "y")], [("a", .tInt), ("b", .tInt)],
        [], false, true, true, [], false⟩ =
      some (⟨[], 0⟩, some (.typeMismatch ["a", "b"])) := rfl
  obtain ⟨la, hla, hma⟩ := ha
  obtain ⟨lb, hlb, hmb⟩ := hb
  rw [hcomp] at hla hlb
  simp only [Option.some.injEq, Prod.mk.injEq, PyErr.typeMismatch.injEq, true_and] at hla hlb
  subst hla
  subst hlb
  exact ⟨hcomp, hma, hmb⟩

theorem exists_ref_of_isFieldVal (u : Val) (h : isFieldVal u = true) :
    ∃ r, u = .vField r := by
  cases u with
  | vField r => exact ⟨r, rfl⟩
  | vInt n => simp [isFieldVal] at h
  | vStr s => simp [isFieldVal] at h
  | vBool b => simp [isFieldVal] at h
  | vNone => simp [isFieldVal] at h

theorem pyCall_nofield : ∀ (t : Ty) (v w : Val), pyCall t v = some w →
    isFieldVal w = false := by
  intro t v w h
  cases t with
  | tAny => simp [pyCall] at h
  | tInt =>
    cases v with
    | vInt n => simp [pyCall] at h; subst h; rfl
    | vBool b => simp [pyCall] at h; subst h; rfl
    | vStr s =>
      simp [pyCall] at h
      obtain ⟨n, _, hn⟩ := h
      subst hn; rfl
    | vNone => simp [pyCall] at h
    | vField r => simp [pyCall] at h
  | tStr => simp [pyCall] at h; subst h; rfl
  | tBool => simp [pyCall] at h; subst h; rfl

theorem alook_updF_heap (st : Store) (r q : Nat) (g : FieldObj → FieldObj) :
    alook (updF st r g).heap q =
      if q = r then (alook st.heap q).map g else alook st.heap q := by
  show alook (st.heap.map fun p => if p.1 = r then (p.1, g p.2) else p) q = _
  exact alook_map_upd st.heap r q g

theorem castStep_nofield (d : DataObj) (k : String) (v : Val)
    (hv : isFieldVal v = false) : isFieldVal (castStep d k v) = false := by
  unfold castStep
  by_cases hac : d.autoCast = true
  · rw [if_pos hac]
    cases h1 : alook d.annotations k with
    | none => simpa using hv
    | some t =>
      cases hw : pyCall t v with
      | none => simpa [hw] using hv
      | some w => simpa [hw] using pyCall_nofield t v w hw
  · rw [if_neg hac]
    exact hv

theorem isComputed_setFVal (st : Store) (r q : Nat) (w : Val) :
    (findF (setFVal st r w) q).isComputed = (findF st q).isComputed := by
  by_cases hq : q = r
  · subst hq
    cases hl : alook st.heap q with
    | none =>
      unfold findF setFVal
      rw [alook_updF_heap]
      simp [hl]
    | some obj =>
      rw [findF_setFVal_self st q w (by simp [hl])]
  · rw [findF_setFVal_ne st r q w hq]

theorem noComputedIn_setFVal (st : Store) (content : List (String × Val))
    (r : Nat) (w : Val) (hnc : noComputedIn st content) :
    noComputedIn (setFVal st r w) content := by
  intro j s hj
  rw [isComputed_setFVal]
  exact hnc j s hj

theorem setitemPost_plain (fuel : Nat) (st : Store) (d : DataObj) (k : String)
    (u w0 : Val) (hu : isFieldVal u = false)
    (hw0 : alook d.content k = some w0) (hw0f : isFieldVal w0 = false) :
    setitemPost fuel st d k u =
      runRTE fuel st { d with content := aset d.content k u } := by
  cases u with
  | vField r => simp [isFieldVal] at hu
  | vInt a =>
    simp only [setitemPost, hw0]
    cases w0 with
    | vField r => simp [isFieldVal] at hw0f
    | vInt b => rfl
    | vStr b => rfl
    | vBool b => rfl
    | vNone => rfl
  | vStr a =>
    simp only [setitemPost, hw0]
    cases w0 with
    | vField r => simp [isFieldVal] at hw0f
    | vInt b => rfl
    | vStr b => rfl
    | vBool b => rfl
    | vNone => rfl
  | vBool a =>
    simp only [setitemPost, hw0]
    cases w0 with
    | vField r => simp [isFieldVal] at hw0f
    | vInt b => rfl
    | vStr b => rfl
    | vBool b => rfl
    | vNone => rfl
  | vNone =>
    simp only [setitemPost, hw0]
    cases w0 with
    | vField r => simp [isFieldVal] at hw0f
    | vInt b => rfl
    | vStr b => rfl
    | vBool b => rfl
    | vNone => rfl

theorem setitemPost_absent (fuel : Nat) (st : Store) (d : DataObj) (k : String)
    (u : Val) (hu : isFieldVal u = false) (h : alook d.content k = none) :
    setitemPost fuel st d k u = some ⟨st, d, some .keyError⟩ := by
  cases u with
  | vField r => simp [isFieldVal] at hu
  | vInt a => simp only [setitemPost, h]
  | vStr a => simp only [setitemPost, h]
  | vBool a => simp only [setitemPost, h]
  | vNone => simp only [setitemPost, h]

theorem setitemPost_fieldslot (fuel : Nat) (st : Store) (d : DataObj) (k : String)
    (u : Val) (r : Nat) (hu : isFieldVal u = false)
    (h : alook d.content k = some (.vField r))
    (hc : (findF st r).isComputed = false) :
    setitemPost fuel st d k u = runRTE fuel (setFVal st r u) d := by
  cases u with
  | vField s => simp [isFieldVal] at hu
  | vInt a => simp only [setitemPost, h, hc, Bool.false_eq_true, if_false]
  | vStr a => simp only [setitemPost, h, hc, Bool.false_eq_true, if_false]
  | vBool a => simp only [setitemPost, h, hc, Bool.false_eq_true, if_false]
  | vNone => simp only [setitemPost, h, hc, Bool.false_eq_true, if_false]

theorem runRTE_char (fuel : Nat) (st : Store) (d : DataObj)
    (hnc : noComputedIn st d.content) (hfuel : 1 ≤ fuel) :
    ∀ res, runRTE fuel st d = some res →
      res.st = st ∧ res.d = d ∧
      (res.err = none ∨ ∃ l, res.err = some (.typeMismatch l)) := by
  intro res hres
  rcases rte_nc_char fuel st d hnc hfuel with h | ⟨l, h⟩
  · unfold runRTE at hres
    rw [h] at hres
    cases hres
    simp
  · unfold runRTE at hres
    rw [h] at hres
    cases hres
    simp

/-- C7: the auto-cast step of a write to an annotated key invokes the
annotated type on the incoming value; on success the rest of the write
proceeds with the coerced value, on failure it proceeds with the
original value unchanged, so for a plain existing slot the stored
entry after a failed cast is exactly the original value; and the cast
step itself never contributes an error: the only errors a write can
raise are the fresh-key KeyError and the validation TypeError. -/
theorem C7_autocast_swallows (fuel : Nat) (st : Store) (d : DataObj)
    (k : String) (v : Val) (t : Ty)
    (hf : d.frozen = false) (hac : d.autoCast = true)
    (ht : alook d.annotations k = some t) :
    (∀ w, pyCall t v = some w →
      setitem fuel st d k v = setitemPost fuel st d k w) ∧
    (pyCall t v = none →
      setitem fuel st d k v = setitemPost fuel st d k v) ∧
    (pyCall t v = none → noComputedIn st d.content → 1 ≤ fuel →
      ∀ w0, alook d.content k = some w0 → isFieldVal w0 = false →
      isFieldVal v = false →
      ∃ e, setitem fuel st d k v =
        some ⟨st, { d with content := aset d.content k v }, e⟩ ∧
        alook (aset d.content k v) k = some v) ∧
    (noComputedIn st d.content → 1 ≤ fuel → isFieldVal v = false →
      ∀ res, setitem fuel st d k v = some res →
        res.err = none ∨ res.err = some .keyError ∨
        ∃ l, res.err = some (.typeMismatch l)) := by
  have hcast_some : ∀ w, pyCall t v = some w → castStep d k v = w := by
    intro w hw
    simp [castStep, hac, ht, hw]
  have hcast_none : pyCall t v = none → castStep d k v = v := by
    intro hw
    simp [castStep, hac, ht, hw]
  have hsetitem : setitem fuel st d k v = setitemPost fuel st d k (castStep d k v) := by
    simp [setitem, hf]
  refine ⟨?_, ?_, ?_, ?_⟩
  · intro w hw
    rw [hsetitem, hcast_some w hw]
  · intro hw
    rw [hsetitem, hcast_none hw]
  · intro hw hnc hfuel w0 hw0 hw0f hvf
    have hd' : noComputedIn st (aset d.content k v) :=
      noComputedIn_aset st d.content k v hnc hvf
    rcases rte_nc_char fuel st { d with content := aset d.content k v } hd' hfuel
      with h1 | ⟨l, h1⟩
    · refine ⟨none, ?_, alook_aset_self d.content k v⟩
      rw [hsetitem, hcast_none hw,
        setitemPost_plain fuel st d k v w0 hvf hw0 hw0f]
      unfold runRTE
      rw [h1]
    · refine ⟨some (.typeMismatch l), ?_, alook_aset_self d.content k v⟩
      rw [hsetitem, hcast_none hw,
        setitemPost_plain fuel st d k v w0 hvf hw0 hw0f]
      unfold runRTE
      rw [h1]
  · intro hnc hfuel hvf res hres
    have huf : isFieldVal (castStep d k v) = false := castStep_nofield d k v hvf
    rw [hsetitem] at hres
    cases hw0 : alook d.content k with
    | none =>
      rw [setitemPost_absent fuel st d k _ huf hw0] at hres
      cases hres
      right; left; rfl
    | some w0 =>
      cases hwf : isFieldVal w0 with
      | true =>
        obtain ⟨r, hr⟩ := exists_ref_of_isFieldVal w0 hwf
        subst hr
        have hcI : (findF st r).isComputed = false := hnc k r hw0
        rw [setitemPost_fieldslot fuel st d k _ r huf hw0 hcI] at hres
        have hnc2 : noComputedIn (setFVal st r (castStep d k v)) d.content :=
          noComputedIn_setFVal st d.content r _ hnc
        rcases (runRTE_char fuel (setFVal st r (castStep d k v)) d hnc2 hfuel
          res hres).2.2 with h | ⟨l, h⟩
        · left; exact h
        · right; right; exact ⟨l, h⟩
      | false =>
        rw [setitemPost_plain fuel st d k _ w0 huf hw0 hwf] at hres
        have hnc2 : noComputedIn st (aset d.content k (castStep d k v)) :=
          noComputedIn_aset st d.content k _ hnc huf
        rcases (runRTE_char fuel st
          { d with content := aset d.content k (castStep d k v) } hnc2 hfuel
          res hres).2.2 with h | ⟨l, h⟩
        · left; exact h
        · right; right; exact ⟨l, h⟩

/-- Witness for C7: on a container annotating age:int with auto-cast,
the write of "42" proceeds with the coerced 42, the write of "not a
number" proceeds with the original string, which is then the stored
entry, and the resulting error is the batched validation TypeError,
not a cast failure. -/
theorem C7_autocast_swallows_witness :
    (setitem 1 ⟨[], 0⟩
        ⟨[("age", .vInt 0)], [("age", .tInt)], [], false, true, true, [], false⟩
        "age" (.vStr "42") =
      setitemPost 1 ⟨[], 0⟩
        ⟨[("age", .vInt 0)], [("age", .tInt)], [], false, true, true, [], false⟩
        "age" (.vInt 42)) ∧
    (setitem 1 ⟨[], 0⟩
        ⟨[("age", .vInt 0)], [("age", .tInt)], [], false, true, true, [], false⟩
        "age" (.vStr "not a number") =
      setitemPost 1 ⟨[], 0⟩
        ⟨[("age", .vInt 0)], [("age", .tInt)], [], false, true, true, [], false⟩
        "age" (.vStr "not a number")) ∧
    alook (aset ([("age", Val.vInt 0)] : List (String × Val)) "age"
        (Val.vStr "not a number")) "age" =
      some (Val.vStr "not a number") := by
  have h := C7_autocast_swallows 1 ⟨[], 0⟩
    ⟨[("age", .vInt 0)], [("age", .tInt)], [], false, true, true, [], false⟩
    "age" (.vStr "42") .tInt rfl rfl rfl
  have h2 := C7_autocast_swallows 1 ⟨[], 0⟩
    ⟨[("age", .vInt 0)], [("age", .tInt)], [], false, true, true, [], false⟩
    "age" (.vStr "not a number") .tInt rfl rfl rfl
  obtain ⟨e, _, hlook⟩ := h2.2.2.1 rfl
    (noComputedIn_of_nofield _ _ (by decide)) (by omega)
    (Val.vInt 0) rfl rfl rfl
  exact ⟨h.1 (.vInt 42) rfl, h2.2.1 rfl, hlook⟩

/-! ### Field-registry invariant lemmas -/

theorem isFieldAtB_eq (content : List (String × Val)) (k : String) (w : Val)
    (h : alook content k = some w) : isFieldAtB content k = isFieldVal w := by
  unfold isFieldAtB
  rw [h]
  cases w <;> rfl

theorem isFieldAtB_none (content : List (String × Val)) (k : String)
    (h : alook content k = none) : isFieldAtB content k = false := by
  unfold isFieldAtB
  rw [h]

theorem isFieldAtB_aset_self (content : List (String × Val)) (k : String) (v : Val) :
    isFieldAtB (aset content k v) k = isFieldVal v :=
  isFieldAtB_eq _ k v (alook_aset_self content k v)

theorem isFieldAtB_aset_ne (content : List (String × Val)) (k j : String) (v : Val)
    (h : j ≠ k) : isFieldAtB (aset content k v) j = isFieldAtB content j := by
  unfold isFieldAtB
  rw [alook_aset_ne content k j v h]

theorem isFieldAtB_adel_self (content : List (String × Val)) (k : String) :
    isFieldAtB (adel content k) k = false := by
  unfold isFieldAtB
  rw [alook_adel_self]

theorem isFieldAtB_adel_ne (content : List (String × Val)) (k j : String)
    (h : j ≠ k) : isFieldAtB (adel content k) j = isFieldAtB content j := by
  unfold isFieldAtB
  rw [alook_adel_ne content k j h]

theorem hasKeyB_aset_self {κ α : Type} [DecidableEq κ] (l : List (κ × α))
    (k : κ) (v : α) : hasKeyB (aset l k v) k = true := by
  unfold hasKeyB
  rw [alook_aset_self]
  rfl

theorem hasKeyB_aset_ne {κ α : Type} [DecidableEq κ] (l : List (κ × α))
    (k j : κ) (v : α) (h : j ≠ k) : hasKeyB (aset l k v) j = hasKeyB l j := by
  unfold hasKeyB
  rw [alook_aset_ne l k j v h]

theorem hasKeyB_adel_self {κ α : Type} [DecidableEq κ] (l : List (κ × α))
    (k : κ) : hasKeyB (adel l k) k = false := by
  unfold hasKeyB
  rw [alook_adel_self]
  rfl

theorem hasKeyB_adel_ne {κ α : Type} [DecidableEq κ] (l : List (κ × α))
    (k j : κ) (h : j ≠ k) : hasKeyB (adel l k) j = hasKeyB l j := by
  unfold hasKeyB
  rw [alook_adel_ne l k j h]

theorem alook_none_of_not_mem {κ α : Type} [DecidableEq κ]
    (l : List (κ × α)) (k : κ) (h : k ∉ l.map Prod.fst) : alook l k = none :=
  alook_none_of_fresh l k
    (fun _ hp he => h (he ▸ List.mem_map_of_mem Prod.fst hp))

theorem keys_aset {κ α : Type} [DecidableEq κ] :
    ∀ (l : List (κ × α)) (k : κ) (v : α),
      (aset l k v).map Prod.fst =
        if k ∈ l.map Prod.fst then l.map Prod.fst
        else l.map Prod.fst ++ [k] := by
  intro l
  induction l with
  | nil => intro k v; simp [aset]
  | cons p rest ih =>
    intro k v
    obtain ⟨ka, va⟩ := p
    by_cases hp : ka = k
    · subst hp
      simp [aset]
    · have hne : k ≠ ka := Ne.symm hp
      simp only [aset, if_neg hp, List.map_cons, ih k v]
      by_cases hm : k ∈ rest.map Prod.fst
      · simp [hm, hne]
      · simp [hm, hne]

theorem nodupkeys_aset {κ α : Type} [DecidableEq κ]
    (l : List (κ × α)) (k : κ) (v : α)
    (hnd : (l.map Prod.fst).Nodup) : ((aset l k v).map Prod.fst).Nodup := by
  rw [keys_aset]
  by_cases hm : k ∈ l.map Prod.fst
  · simpa [hm] using hnd
  · simp [hm, List.nodup_append, hnd]

theorem prepLoop_nodup :
    ∀ (l : List (String × Val)) (st : Store) (acc : List (String × Val))
      (st2 : Store) (out : List (String × Val)),
      (acc.map Prod.fst).Nodup → prepLoop st acc l = .ok (st2, out) →
      (out.map Prod.fst).Nodup := by
  intro l
  induction l with
  | nil =>
    intro st acc st2 out hnd h
    cases h
    exact hnd
  | cons p rest ih =>
    intro st acc st2 out hnd h
    obtain ⟨ka, va⟩ := p
    cases va with
    | vField r =>
      simp only [prepLoop] at h
      by_cases hcf : (findF st r).classfield = true
      · rw [if_pos hcf] at h
        exact ih st (aset acc ka (.vField r)) st2 out (nodupkeys_aset acc ka _ hnd) h
      · rw [if_neg hcf] at h
        by_cases hic : (findF st r).isComputed = true
        · rw [if_pos hic] at h
          cases h
        · rw [if_neg hic] at h
          exact ih _ (aset acc ka (.vField st.next)) st2 out
            (nodupkeys_aset acc ka _ hnd) h
    | vInt n =>
      exact ih st (aset acc ka (.vInt n)) st2 out (nodupkeys_aset acc ka _ hnd) h
    | vStr s =>
      exact ih st (aset acc ka (.vStr s)) st2 out (nodupkeys_aset acc ka _ hnd) h
    | vBool b =>
      exact ih st (aset acc ka (.vBool b)) st2 out (nodupkeys_aset acc ka _ hnd) h
    | vNone =>
      exact ih st (aset acc ka .vNone) st2 out (nodupkeys_aset acc ka _ hnd) h

theorem kwLoop_nodup :
    ∀ (l acc : List (String × Val)) (st : Store),
      (acc.map Prod.fst).Nodup → (((kwLoop st acc l).2).map Prod.fst).Nodup := by
  intro l
  induction l with
  | nil => intro acc st hnd; exact hnd
  | cons p rest ih =>
    intro acc st hnd
    obtain ⟨ka, va⟩ := p
    simp only [kwLoop]
    cases hl : alook acc ka with
    | none => exact ih (aset acc ka va) st (nodupkeys_aset acc ka va hnd)
    | some w =>
      cases w with
      | vField r =>
        dsimp only
        by_cases hic : (findF st r).isComputed = true
        · rw [if_pos hic]
          exact ih (aset acc ka va) st (nodupkeys_aset acc ka va hnd)
        · rw [if_neg hic]
          exact ih acc (setFVal st r va) hnd
      | vInt n => exact ih (aset acc ka va) st (nodupkeys_aset acc ka va hnd)
      | vStr s => exact ih (aset acc ka va) st (nodupkeys_aset acc ka va hnd)
      | vBool b => exact ih (aset acc ka va) st (nodupkeys_aset acc ka va hnd)
      | vNone => exact ih (aset acc ka va) st (nodupkeys_aset acc ka va hnd)

theorem alook_fieldsOf_none :
    ∀ (l : List (String × Val)) (k : String),
      alook l k = none → alook (fieldsOf l) k = none := by
  intro l
  induction l with
  | nil => intro k _; rfl
  | cons p rest ih =>
    intro k h
    obtain ⟨ka, va⟩ := p
    by_cases hk : ka = k
    · simp [alook, hk] at h
    · simp only [alook, if_neg hk] at h
      cases va with
      | vField r => simp only [fieldsOf, List.filterMap_cons]
                    simp only [alook, if_neg hk]
                    exact ih k h
      | vInt n => simpa [fieldsOf] using ih k h
      | vStr s => simpa [fieldsOf] using ih k h
      | vBool b => simpa [fieldsOf] using ih k h
      | vNone => simpa [fieldsOf] using ih k h

theorem fieldsOf_inv :
    ∀ (content : List (String × Val)),
      (content.map Prod.fst).Nodup →
      ∀ k, hasKeyB (fieldsOf content) k = isFieldAtB content k := by
  intro content
  induction content with
  | nil => intro _ k; rfl
  | cons p rest ih =>
    intro hnd k
    obtain ⟨ka, va⟩ := p
    obtain ⟨hka, hnd'⟩ := List.nodup_cons.mp hnd
    by_cases hk : ka = k
    · subst hk
      have hrest : alook rest ka = none :=
        alook_none_of_not_mem rest ka hka
      have hfrest : alook (fieldsOf rest) ka = none :=
        alook_fieldsOf_none rest ka hrest
      simp only [fieldsOf] at hfrest
      cases va with
      | vField r => simp [fieldsOf, hasKeyB, isFieldAtB, alook]
      | vInt n => simp [fieldsOf, hasKeyB, isFieldAtB, alook, hfrest]
      | vStr s => simp [fieldsOf, hasKeyB, isFieldAtB, alook, hfrest]
      | vBool b => simp [fieldsOf, hasKeyB, isFieldAtB, alook, hfrest]
      | vNone => simp [fieldsOf, hasKeyB, isFieldAtB, alook, hfrest]
    · have hih := ih hnd' k
      cases va with
      | vField r =>
        simp only [fieldsOf, List.filterMap_cons] at hih ⊢
        simp only [hasKeyB, isFieldAtB, alook, if_neg hk] at hih ⊢
        exact hih
      | vInt n =>
        simpa [fieldsOf, hasKeyB, isFieldAtB, alook, hk] using hih
      | vStr s =>
        simpa [fieldsOf, hasKeyB, isFieldAtB, alook, hk] using hih
      | vBool b =>
        simpa [fieldsOf, hasKeyB, isFieldAtB, alook, hk] using hih
      | vNone =>
        simpa [fieldsOf, hasKeyB, isFieldAtB, alook, hk] using hih

theorem mkData_Inv (st : Store) (clsMeta value kwargs : List (String × Val))
    (fa aa sa : Bool) (st2 : Store) (d : DataObj)
    (h : mkData st clsMeta value kwargs fa aa sa = .ok (st2, d)) : Inv d := by
  unfold mkData at h
  cases hp : prepLoop st [] value with
  | error e => rw [hp] at h; exact absurd h (by simp)
  | ok pr =>
    obtain ⟨st1, prep1⟩ := pr
    rw [hp] at h
    simp only at h
    cases hkw : kwLoop st1 prep1 kwargs with
    | mk st2' prep2 =>
      rw [hkw] at h
      simp only at h
      cases hm : instMetaOf prep2 with
      | error e => rw [hm] at h; exact absurd h (by simp)
      | ok im =>
        rw [hm] at h
        simp only [Except.ok.injEq, Prod.mk.injEq] at h
        obtain ⟨hst, hd⟩ := h
        subst hd
        have hnd1 : (prep1.map Prod.fst).Nodup :=
          prepLoop_nodup value st [] st1 prep1 (by simp) hp
        have hnd2 : (prep2.map Prod.fst).Nodup := by
          have := kwLoop_nodup kwargs prep1 st1 hnd1
          rw [hkw] at this
          exact this
        intro k
        exact fieldsOf_inv prep2 hnd2 k

theorem runRTE_d (fuel : Nat) (st : Store) (d : DataObj) (res : OpRes)
    (h : runRTE fuel st d = some res) : res.d = d := by
  unfold runRTE at h
  cases hr : raiseTypingError fuel st d with
  | none => rw [hr] at h; cases h
  | some p =>
    obtain ⟨st2, e⟩ := p
    rw [hr] at h
    cases h
    rfl

theorem setitem_Inv (fuel : Nat) (st : Store) (d : DataObj) (k : String) (v : Val)
    (hInv : Inv d) (hgw : GoodW st d k (castStep d k v)) :
    ∀ res, setitem fuel st d k v = some res → Inv res.d := by
  intro res hres
  unfold setitem at hres
  by_cases hf : d.frozen = true
  · rw [if_pos hf] at hres
    cases hres
    exact hInv
  · rw [if_neg hf] at hres
    cases hufv : isFieldVal (castStep d k v) with
    | true =>
      obtain ⟨r, hr⟩ := exists_ref_of_isFieldVal _ hufv
      rw [hr] at hres
      have heq : setitemPost fuel st d k (.vField r) =
          runRTE fuel st
            { d with fields := aset d.fields k r,
                     content := aset d.content k (.vField r) } := rfl
      rw [heq] at hres
      have hd := runRTE_d fuel st _ res hres
      rw [hd]
      intro j
      by_cases hj : j = k
      · subst hj
        show hasKeyB (aset d.fields j r) j = isFieldAtB (aset d.content j (.vField r)) j
        rw [hasKeyB_aset_self, isFieldAtB_aset_self]
        rfl
      · show hasKeyB (aset d.fields k r) j = isFieldAtB (aset d.content k (.vField r)) j
        rw [hasKeyB_aset_ne _ _ _ _ hj, isFieldAtB_aset_ne _ _ _ _ hj]
        exact hInv j
    | false =>
      cases hw0 : alook d.content k with
      | none =>
        rw [setitemPost_absent fuel st d k _ hufv hw0] at hres
        cases hres
        exact hInv
      | some w0 =>
        cases hw0f : isFieldVal w0 with
        | true =>
          obtain ⟨r, hr⟩ := exists_ref_of_isFieldVal _ hw0f
          subst hr
          have hslot : (findF st r).isComputed = false := by
            rcases hgw with hl | hrr
            · rw [hufv] at hl; cases hl
            · exact hrr r hw0
          rw [setitemPost_fieldslot fuel st d k _ r hufv hw0 hslot] at hres
          have hd := runRTE_d fuel _ _ res hres
          rw [hd]
          exact hInv
        | false =>
          rw [setitemPost_plain fuel st d k _ w0 hufv hw0 hw0f] at hres
          have hd := runRTE_d fuel st _ res hres
          rw [hd]
          intro j
          by_cases hj : j = k
          · subst hj
            show hasKeyB d.fields j = isFieldAtB (aset d.content j (castStep d j v)) j
            rw [isFieldAtB_aset_self, hInv j, isFieldAtB_eq d.content j w0 hw0,
              hw0f, hufv]
          · show hasKeyB d.fields j = isFieldAtB (aset d.content k (castStep d k v)) j
            rw [isFieldAtB_aset_ne _ _ _ _ hj]
            exact hInv j

theorem hasKeyB_of_isFieldAtB (l : List (String × Val)) (k : String)
    (h : isFieldAtB l k = true) : hasKeyB l k = true := by
  unfold isFieldAtB at h
  unfold hasKeyB
  cases hl : alook l k with
  | none => rw [hl] at h; cases h
  | some v => rfl

theorem delitem_Inv (st : Store) (d : DataObj) (k : String) (hInv : Inv d) :
    Inv (delitem st d k).d := by
  unfold delitem
  by_cases hf : d.frozen = true
  · rw [if_pos hf]
    exact hInv
  · rw [if_neg hf]
    by_cases hkf : hasKeyB d.fields k = true
    · rw [if_pos hkf]
      have hck : hasKeyB d.content k = true :=
        hasKeyB_of_isFieldAtB d.content k ((hInv k) ▸ hkf)
      rw [if_pos hck]
      intro j
      by_cases hj : j = k
      · subst hj
        show hasKeyB (adel d.fields j) j = isFieldAtB (adel d.content j) j
        rw [hasKeyB_adel_self, isFieldAtB_adel_self]
      · show hasKeyB (adel d.fields k) j = isFieldAtB (adel d.content k) j
        rw [hasKeyB_adel_ne _ _ _ hj, isFieldAtB_adel_ne _ _ _ hj]
        exact hInv j
    · rw [if_neg hkf]
      by_cases hck : hasKeyB d.content k = true
      · rw [if_pos hck]
        intro j
        by_cases hj : j = k
        · subst hj
          show hasKeyB d.fields j = isFieldAtB (adel d.content j) j
          rw [isFieldAtB_adel_self]
          simp only [Bool.not_eq_true] at hkf
          exact hkf
        · show hasKeyB d.fields j = isFieldAtB (adel d.content k) j
          rw [isFieldAtB_adel_ne _ _ _ hj]
          exact hInv j
      · rw [if_neg hck]
        exact hInv

theorem pop_Inv (fuel : Nat) (st : Store) (d : DataObj) (k : String) (dflt : Val)
    (hInv : Inv d) (hdf : isFieldVal dflt = false) :
    ∀ res out, popOp fuel st d k dflt = some (res, out) → Inv res.d := by
  intro res out hres
  unfold popOp at hres
  by_cases hf : d.frozen = true
  · rw [if_pos hf] at hres
    cases hres
    exact hInv
  · rw [if_neg hf] at hres
    cases fuel with
    | zero =>
      rw [show resolveValue 0 st d dflt = none from rfl] at hres
      simp at hres
    | succ m =>
      rw [resolveValue_nofield (m + 1) st d dflt hdf (by omega)] at hres
      cases hw : alook d.content k with
      | none =>
        rw [hw] at hres
        dsimp only at hres
        rw [hw] at hres
        dsimp only at hres
        cases hres
        exact hInv
      | some w0 =>
        rw [hw] at hres
        cases w0 with
        | vField r =>
          dsimp only at hres
          rw [hw] at hres
          dsimp only at hres
          cases hres
          intro j
          by_cases hj : j = k
          · subst hj
            show hasKeyB (adel d.fields j) j = isFieldAtB (adel d.content j) j
            rw [hasKeyB_adel_self, isFieldAtB_adel_self]
          · show hasKeyB (adel d.fields k) j = isFieldAtB (adel d.content k) j
            rw [hasKeyB_adel_ne _ _ _ hj, isFieldAtB_adel_ne _ _ _ hj]
            exact hInv j
        | vInt a =>
          dsimp only at hres
          rw [hw] at hres
          dsimp only at hres
          cases hres
          intro j
          by_cases hj : j = k
          · subst hj
            show hasKeyB d.fields j = isFieldAtB (adel d.content j) j
            rw [isFieldAtB_adel_self, hInv j, isFieldAtB_eq d.content j _ hw]
            rfl
          · show hasKeyB d.fields j = isFieldAtB (adel d.content k) j
            rw [isFieldAtB_adel_ne _ _ _ hj]
            exact hInv j
        | vStr a =>
          dsimp only at hres
          rw [hw] at hres
          dsimp only at hres
          cases hres
          intro j
          by_cases hj : j = k
          · subst hj
            show hasKeyB d.fields j = isFieldAtB (adel d.content j) j
            rw [isFieldAtB_adel_self, hInv j, isFieldAtB_eq d.content j _ hw]
            rfl
          · show hasKeyB d.fields j = isFieldAtB (adel d.content k) j
            rw [isFieldAtB_adel_ne _ _ _ hj]
            exact hInv j
        | vBool a =>
          dsimp only at hres
          rw [hw] at hres
          dsimp only at hres
          cases hres
          intro j
          by_cases hj : j = k
          · subst hj
            show hasKeyB d.fields j = isFieldAtB (adel d.content j) j
            rw [isFieldAtB_adel_self, hInv j, isFieldAtB_eq d.content j _ hw]
            rfl
          · show hasKeyB d.fields j = isFieldAtB (adel d.content k) j
            rw [isFieldAtB_adel_ne _ _ _ hj]
            exact hInv j
        | vNone =>
          dsimp only at hres
          rw [hw] at hres
          dsimp only at hres
          cases hres
          intro j
          by_cases hj : j = k
          · subst hj
            show hasKeyB d.fields j = isFieldAtB (adel d.content j) j
            rw [isFieldAtB_adel_self, hInv j, isFieldAtB_eq d.content j _ hw]
            rfl
          · show hasKeyB d.fields j = isFieldAtB (adel d.content k) j
            rw [isFieldAtB_adel_ne _ _ _ hj]
            exact hInv j

theorem alook_none_of_hasKeyB_false {κ α : Type} [DecidableEq κ]
    (l : List (κ × α)) (k : κ) (h : hasKeyB l k = false) : alook l k = none := by
  unfold hasKeyB at h
  cases hl : alook l k with
  | none => rfl
  | some v => rw [hl] at h; cases h

theorem setitem_step (fuel : Nat) (st : Store) (d : DataObj) (k : String) (v : Val)
    (hInv : Inv d) (hnc : ∀ q, (findF st q).isComputed = false)
    (hvf : isFieldVal v = false) (hfuel : 1 ≤ fuel) :
    ∀ res, setitem fuel st d k v = some res →
      Inv res.d ∧ (∀ q, (findF res.st q).isComputed = false) := by
  intro res hres
  have hgw : GoodW st d k (castStep d k v) := Or.inr (fun r _ => hnc r)
  refine ⟨setitem_Inv fuel st d k v hInv hgw res hres, ?_⟩
  unfold setitem at hres
  by_cases hf : d.frozen = true
  · rw [if_pos hf] at hres
    cases hres
    exact hnc
  · rw [if_neg hf] at hres
    have hufv : isFieldVal (castStep d k v) = false := castStep_nofield d k v hvf
    have hncIn : ∀ (c : List (String × Val)), noComputedIn st c :=
      fun c j r _ => hnc r
    cases hw0 : alook d.content k with
    | none =>
      rw [setitemPost_absent fuel st d k _ hufv hw0] at hres
      cases hres
      exact hnc
    | some w0 =>
      cases hw0f : isFieldVal w0 with
      | true =>
        obtain ⟨r, hr⟩ := exists_ref_of_isFieldVal _ hw0f
        subst hr
        rw [setitemPost_fieldslot fuel st d k _ r hufv hw0 (hnc r)] at hres
        have hnc2 : noComputedIn (setFVal st r (castStep d k v)) d.content :=
          noComputedIn_setFVal st d.content r _ (hncIn d.content)
        have hchar := runRTE_char fuel _ d hnc2 hfuel res hres
        rw [hchar.1]
        intro q
        rw [isComputed_setFVal]
        exact hnc q
      | false =>
        rw [setitemPost_plain fuel st d k _ w0 hufv hw0 hw0f] at hres
        have hnc2 : noComputedIn st (aset d.content k (castStep d k v)) :=
          noComputedIn_aset st d.content k _ (hncIn d.content) hufv
        have hchar := runRTE_char fuel st _ hnc2 hfuel res hres
        rw [hchar.1]
        exact hnc

theorem updAux_Inv :
    ∀ (pairs : List (String × Val)) (fuel : Nat) (st : Store) (d : DataObj),
      Inv d → (∀ q, (findF st q).isComputed = false) →
      (∀ p ∈ pairs, isFieldVal p.2 = false) → 1 ≤ fuel →
      ∀ res, updAux fuel st d pairs = some res →
        Inv res.d ∧ (∀ q, (findF res.st q).isComputed = false) := by
  intro pairs
  induction pairs with
  | nil =>
    intro fuel st d hInv hnc _ _ res hres
    cases hres
    exact ⟨hInv, hnc⟩
  | cons p rest ih =>
    intro fuel st d hInv hnc hpf hfuel res hres
    obtain ⟨k, v⟩ := p
    simp only [updAux] at hres
    cases hsi : setitem fuel st d k v with
    | none => rw [hsi] at hres; cases hres
    | some r1 =>
      obtain ⟨st2, d2, e⟩ := r1
      have hstep := setitem_step fuel st d k v hInv hnc
        (hpf (k, v) (by simp)) hfuel ⟨st2, d2, e⟩ hsi
      rw [hsi] at hres
      cases e with
      | some e0 =>
        dsimp only at hres
        cases hres
        exact hstep
      | none =>
        dsimp only at hres
        exact ih fuel st2 d2 hstep.1 hstep.2
          (fun q hq => hpf q (by simp [hq])) hfuel res hres

theorem updateOp_Inv (fuel : Nat) (st : Store) (d : DataObj)
    (pairs : List (String × Val))
    (hInv : Inv d) (hnc : ∀ q, (findF st q).isComputed = false)
    (hpf : ∀ p ∈ pairs, isFieldVal p.2 = false) (hfuel : 1 ≤ fuel) :
    ∀ res, updateOp fuel st d pairs = some res → Inv res.d := by
  intro res hres
  unfold updateOp at hres
  by_cases hf : d.frozen = true
  · rw [if_pos hf] at hres
    cases hres
    exact hInv
  · rw [if_neg hf] at hres
    cases hup : updAux fuel st d pairs with
    | none => rw [hup] at hres; cases hres
    | some r1 =>
      obtain ⟨st2, d2, e⟩ := r1
      have haux := updAux_Inv pairs fuel st d hInv hnc hpf hfuel ⟨st2, d2, e⟩ hup
      rw [hup] at hres
      cases e with
      | some e0 =>
        dsimp only at hres
        cases hres
        exact haux.1
      | none =>
        dsimp only at hres
        have hd := runRTE_d fuel st2 d2 res hres
        rw [hd]
        exact haux.1

theorem setdefault_Inv (fuel : Nat) (st : Store) (d : DataObj) (k : String)
    (dflt : Val)
    (hInv : Inv d) (hcast : castStep d k dflt = dflt)
    (hd : isFieldVal dflt = false ∨
      ∃ r, dflt = .vField r ∧ (findF st r).isComputed = false) :
    ∀ res out, setdefault fuel st d k dflt = some (res, out) → Inv res.d := by
  intro res out hres
  unfold setdefault at hres
  by_cases hf : d.frozen = true
  · rw [if_pos hf] at hres
    cases hres
    exact hInv
  · rw [if_neg hf] at hres
    by_cases hK : hasKeyB d.content k = true
    · rw [if_pos hK] at hres
      dsimp only at hres
      cases hg : getitem fuel st d k with
      | none => rw [hg] at hres; cases hres
      | some p =>
        obtain ⟨st3, ex⟩ := p
        rw [hg] at hres
        cases ex with
        | error e =>
          dsimp only at hres
          cases hres
          exact hInv
        | ok rv =>
          dsimp only at hres
          cases hrt : raiseTypingError fuel st3 d with
          | none => rw [hrt] at hres; cases hres
          | some p2 =>
            obtain ⟨st4, e2⟩ := p2
            rw [hrt] at hres
            cases e2 with
            | some e3 => dsimp only at hres; cases hres; exact hInv
            | none => dsimp only at hres; cases hres; exact hInv
    · rw [if_neg hK] at hres
      have hlook : alook d.content k = none :=
        alook_none_of_hasKeyB_false d.content k (by
          cases hb : hasKeyB d.content k with
          | false => rfl
          | true => exact absurd hb hK)
      -- establish: the step produced some ⟨st2, d2, eOpt⟩ with Inv d2,
      -- by case analysis on the default
      rcases hd with hplain | ⟨r, hr, hrc⟩
      · -- plain default: the inner write hits the fresh-key KeyError
        cases hdflt : dflt with
        | vField s => rw [hdflt] at hplain; simp [isFieldVal] at hplain
        | vInt a =>
          subst hdflt
          dsimp only at hres
          cases fuel with
          | zero =>
            rw [show resolveValue 0 st d (.vInt a) = none from rfl] at hres
            dsimp only at hres
            cases hres
          | succ m =>
            rw [resolveValue_nofield (m + 1) st d (.vInt a) rfl (by omega)] at hres
            dsimp only at hres
            rw [show setitem (m + 1) st d k (.vInt a) =
              some ⟨st, d, some .keyError⟩ from by
                unfold setitem
                rw [if_neg hf, hcast, setitemPost_absent (m + 1) st d k (.vInt a) rfl hlook]] at hres
            dsimp only at hres
            cases hres
            exact hInv
        | vStr a =>
          subst hdflt
          dsimp only at hres
          cases fuel with
          | zero =>
            rw [show resolveValue 0 st d (.vStr a) = none from rfl] at hres
            dsimp only at hres
            cases hres
          | succ m =>
            rw [resolveValue_nofield (m + 1) st d (.vStr a) rfl (by omega)] at hres
            dsimp only at hres
            rw [show setitem (m + 1) st d k (.vStr a) =
              some ⟨st, d, some .keyError⟩ from by
                unfold setitem
                rw [if_neg hf, hcast, setitemPost_absent (m + 1) st d k (.vStr a) rfl hlook]] at hres
            dsimp only at hres
            cases hres
            exact hInv
        | vBool a =>
          subst hdflt
          dsimp only at hres
          cases fuel with
          | zero =>
            rw [show resolveValue 0 st d (.vBool a) = none from rfl] at hres
            dsimp only at hres
            cases hres
          | succ m =>
            rw [resolveValue_nofield (m + 1) st d (.vBool a) rfl (by omega)] at hres
            dsimp only at hres
            rw [show setitem (m + 1) st d k (.vBool a) =
              some ⟨st, d, some .keyError⟩ from by
                unfold setitem
                rw [if_neg hf, hcast, setitemPost_absent (m + 1) st d k (.vBool a) rfl hlook]] at hres
            dsimp only at hres
            cases hres
            exact hInv
        | vNone =>
          subst hdflt
          dsimp only at hres
          cases fuel with
          | zero =>
            rw [show resolveValue 0 st d .vNone = none from rfl] at hres
            dsimp only at hres
            cases hres
          | succ m =>
            rw [resolveValue_nofield (m + 1) st d .vNone rfl (by omega)] at hres
            dsimp only at hres
            rw [show setitem (m + 1) st d k .vNone =
              some ⟨st, d, some .keyError⟩ from by
                unfold setitem
                rw [if_neg hf, hcast, setitemPost_absent (m + 1) st d k .vNone rfl hlook]] at hres
            dsimp only at hres
            cases hres
            exact hInv
      · -- Field default: registry and content both gain the key
        subst hr
        dsimp only at hres
        cases fuel with
        | zero =>
          rw [show resolveValue 0 st
            { d with fields := aset d.fields k r } (.vField r) = none from rfl] at hres
          dsimp only at hres
          cases hres
        | succ m =>
          have hresolve : resolveValue (m + 1) st
              { d with fields := aset d.fields k r } (.vField r) =
              some (st, .ok (pyOr (findF st r).fvalue (findF st r).default)) := by
            show resolveValue (m + 1) st _ (.vField r) = _
            unfold resolveValue
            rw [hrc]
            rfl
          rw [hresolve] at hres
          dsimp only at hres
          have hcast1 : castStep { d with fields := aset d.fields k r } k (.vField r) =
              .vField r := hcast
          have hsi : setitem (m + 1) st { d with fields := aset d.fields k r } k
              (.vField r) =
              runRTE (m + 1) st
                { d with fields := aset (aset d.fields k r) k r,
                         content := aset d.content k (.vField r) } := by
            unfold setitem
            rw [if_neg hf, hcast1]
            rfl
          rw [hsi] at hres
          have hI2 : Inv { d with fields := aset (aset d.fields k r) k r,
                                  content := aset d.content k (.vField r) } := by
            intro j
            by_cases hj : j = k
            · subst hj
              show hasKeyB (aset (aset d.fields j r) j r) j =
                isFieldAtB (aset d.content j (.vField r)) j
              rw [hasKeyB_aset_self, isFieldAtB_aset_self]
              rfl
            · show hasKeyB (aset (aset d.fields k r) k r) j =
                isFieldAtB (aset d.content k (.vField r)) j
              rw [hasKeyB_aset_ne _ _ _ _ hj, hasKeyB_aset_ne _ _ _ _ hj,
                isFieldAtB_aset_ne _ _ _ _ hj]
              exact hInv j
          cases hrr : runRTE (m + 1) st
              { d with fields := aset (aset d.fields k r) k r,
                       content := aset d.content k (.vField r) } with
          | none => rw [hrr] at hres; cases hres
          | some r2 =>
            obtain ⟨st2, d2, e2⟩ := r2
            have hd2 : d2 = { d with fields := aset (aset d.fields k r) k r,
                                     content := aset d.content k (.vField r) } :=
              runRTE_d (m + 1) st _ ⟨st2, d2, e2⟩ hrr
            rw [hrr] at hres
            cases e2 with
            | some e3 =>
              dsimp only at hres
              cases hres
              rw [hd2]
              exact hI2
            | none =>
              dsimp only at hres
              cases hg : getitem (m + 1) st2 d2 k with
              | none => rw [hg] at hres; cases hres
              | some p =>
                obtain ⟨st3, ex⟩ := p
                rw [hg] at hres
                cases ex with
                | error e =>
                  dsimp only at hres
                  cases hres
                  rw [hd2]
                  exact hI2
                | ok rv =>
                  dsimp only at hres
                  cases hrt : raiseTypingError (m + 1) st3 d2 with
                  | none => rw [hrt] at hres; cases hres
                  | some p2 =>
                    obtain ⟨st4, e4⟩ := p2
                    rw [hrt] at hres
                    cases e4 with
                    | some e5 =>
                      dsimp only at hres
                      cases hres
                      rw [hd2]
                      exact hI2
                    | none =>
                      dsimp only at hres
                      cases hres
                      rw [hd2]
                      exact hI2

/-- C10 counterexample: the claimed invariant (registry keys = content
keys holding Fields) is broken by a reachable two-step sequence: store
a ComputedField at a fresh key of Data() (the Field branch of
__setitem__ registers it), then write a plain value to that key -- the
elif skips ComputedFields, so the content slot becomes a plain value
while __fields__ still registers the key. -/
theorem C10_counterexample :
    mkData ⟨[(0, ⟨true, .vNone, false, false, .vNone, .always, .const (.vInt 7), false⟩)], 1⟩
      [] [] [] false true true =
      .ok (⟨[(0, ⟨true, .vNone, false, false, .vNone, .always, .const (.vInt 7), false⟩)], 1⟩,
        ⟨[], [], [], false, true, true, [], false⟩) ∧
    setitem 1 ⟨[(0, ⟨true, .vNone, false, false, .vNone, .always, .const (.vInt 7), false⟩)], 1⟩
      ⟨[], [], [], false, true, true, [], false⟩ "c" (.vField 0) =
      some ⟨⟨[(0, ⟨true, .vNone, false, false, .vNone, .always, .const (.vInt 7), false⟩)], 1⟩,
        ⟨[("c", .vField 0)], [], [("c", 0)], false, true, true, [], false⟩, none⟩ ∧
    setitem 1 ⟨[(0, ⟨true, .vNone, false, false, .vNone, .always, .const (.vInt 7), false⟩)], 1⟩
      ⟨[("c", .vField 0)], [], [("c", 0)], false, true, true, [], false⟩ "c" (.vInt 5) =
      some ⟨⟨[(0, ⟨true, .vNone, false, false, .vNone, .always, .const (.vInt 7), false⟩)], 1⟩,
        ⟨[("c", .vInt 5)], [], [("c", 0)], false, true, true, [], false⟩, none⟩ ∧
    hasKeyB ([("c", 0)] : List (String × Nat)) "c" = true ∧
    isFieldAtB [("c", .vInt 5)] "c" = false := by
  refine ⟨rfl, rfl, rfl, by decide, by decide⟩

/-- C10 as amended: the registry/content correspondence holds after
construction and is preserved by each public operation with two
exceptions, exactly the two paths the counterexample family exercises:
a plain write to a key whose slot is a ComputedField, and the
exception rollback of __exit__ when the Field-key set changed inside
the scope.  Concretely: construction establishes the invariant;
__setitem__ and attribute assignment preserve it whenever the written
(post-cast) value is a Field or the existing slot is not a
ComputedField; __delitem__, pop (with a plain default), and clear
preserve it unconditionally; update preserves it for plain-value
batches on containers whose heap holds no ComputedFields; setdefault
preserves it when the default is not coerced and is a plain value or a
non-computed Field; __enter__ and the no-exception __exit__ preserve
it; and the exception __exit__ preserves it exactly when the registry
also matches the saved snapshot. -/
theorem C10_registry_invariant :
    (∀ (st : Store) (clsMeta value kwargs : List (String × Val)) (fa aa sa : Bool)
       (st2 : Store) (d : DataObj),
       mkData st clsMeta value kwargs fa aa sa = .ok (st2, d) → Inv d) ∧
    (∀ (fuel : Nat) (st : Store) (d : DataObj) (k : String) (v : Val),
       Inv d → GoodW st d k (castStep d k v) →
       ∀ res, setitem fuel st d k v = some res → Inv res.d) ∧
    (∀ (fuel : Nat) (st : Store) (d : DataObj) (k : String) (v : Val),
       Inv d → GoodW st d k (castStep d k v) →
       ∀ res, setattrOp fuel st d k v = some res → Inv res.d) ∧
    (∀ (st : Store) (d : DataObj) (k : String), Inv d → Inv (delitem st d k).d) ∧
    (∀ (fuel : Nat) (st : Store) (d : DataObj) (k : String) (dflt : Val),
       Inv d → isFieldVal dflt = false →
       ∀ res out, popOp fuel st d k dflt = some (res, out) → Inv res.d) ∧
    (∀ (st : Store) (d : DataObj), Inv d → Inv (clearOp st d).d) ∧
    (∀ (fuel : Nat) (st : Store) (d : DataObj) (pairs : List (String × Val)),
       Inv d → (∀ q, (findF st q).isComputed = false) →
       (∀ p ∈ pairs, isFieldVal p.2 = false) → 1 ≤ fuel →
       ∀ res, updateOp fuel st d pairs = some res → Inv res.d) ∧
    (∀ (fuel : Nat) (st : Store) (d : DataObj) (k : String) (dflt : Val),
       Inv d → castStep d k dflt = dflt →
       (isFieldVal dflt = false ∨
         ∃ r, dflt = .vField r ∧ (findF st r).isComputed = false) →
       ∀ res out, setdefault fuel st d k dflt = some (res, out) → Inv res.d) ∧
    (∀ (st : Store) (d : DataObj), Inv d → Inv (enterOp st d).d) ∧
    (∀ (st : Store) (d : DataObj), Inv d → Inv (exitOp st d false).d) ∧
    (∀ (st : Store) (d : DataObj), Inv d →
       (∀ j, hasKeyB d.fields j = isFieldAtB d.original j) →
       Inv (exitOp st d true).d) := by
  refine ⟨?_, ?_, ?_, ?_, ?_, ?_, ?_, ?_, ?_, ?_, ?_⟩
  · intro st clsMeta value kwargs fa aa sa st2 d h
    exact mkData_Inv st clsMeta value kwargs fa aa sa st2 d h
  · intro fuel st d k v hInv hgw res hres
    exact setitem_Inv fuel st d k v hInv hgw res hres
  · intro fuel st d k v hInv hgw res hres
    exact setitem_Inv fuel st d k v hInv hgw res hres
  · intro st d k hInv
    exact delitem_Inv st d k hInv
  · intro fuel st d k dflt hInv hdf res out hres
    exact pop_Inv fuel st d k dflt hInv hdf res out hres
  · intro st d hInv
    unfold clearOp
    by_cases hf : d.frozen = true
    · rw [if_pos hf]
      exact hInv
    · rw [if_neg hf]
      intro j
      rfl
  · intro fuel st d pairs hInv hnc hpf hfuel res hres
    exact updateOp_Inv fuel st d pairs hInv hnc hpf hfuel res hres
  · intro fuel st d k dflt hInv hcast hdisj res out hres
    exact setdefault_Inv fuel st d k dflt hInv hcast hdisj res out hres
  · intro st d hInv
    exact hInv
  · intro st d hInv
    exact hInv
  · intro st d _ hsnap
    exact hsnap

/-- Witness for C10 at concrete states: a container with one plain
Field and one plain value, all the listed operations applied to it. -/
theorem C10_registry_invariant_witness :
    Inv (⟨[], [], [], false, true, true, [], false⟩ : DataObj) ∧
    Inv (⟨[("a", .vField 0), ("b", .vInt 2)], [], [("a", 0)],
      false, false, true, [], false⟩ : DataObj) ∧
    Inv (⟨[("b", .vInt 1)], [], [], false, false, true, [], false⟩ : DataObj) ∧
    Inv (⟨[("a", .vField 0), ("b", .vInt 3)], [], [("a", 0)],
      false, false, true, [], false⟩ : DataObj) ∧
    Inv (⟨[], [], [], false, false, true, [], false⟩ : DataObj) ∧
    Inv (⟨[("a", .vField 0), ("b", .vInt 1)], [], [("a", 0)],
      false, false, true, [("a", .vField 0), ("b", .vInt 1)], false⟩ : DataObj) := by
  have hIW : Inv (⟨[("a", .vField 0), ("b", .vInt 1)], [], [("a", 0)],
      false, false, true, [], false⟩ : DataObj) := by
    intro j
    by_cases h1 : ("a" : String) = j <;> by_cases h2 : ("b" : String) = j <;>
      simp [hasKeyB, isFieldAtB, alook, h1, h2]
  have hIX : Inv (⟨[("a", .vField 0), ("b", .vInt 1)], [], [("a", 0)],
      false, false, true, [("a", .vField 0), ("b", .vInt 1)], false⟩ : DataObj) := by
    intro j
    by_cases h1 : ("a" : String) = j <;> by_cases h2 : ("b" : String) = j <;>
      simp [hasKeyB, isFieldAtB, alook, h1, h2]
  have hnc : ∀ q, (findF (⟨[(0, ⟨false, .vNone, false, false, .vNone, .always,
      .const .vNone, false⟩)], 1⟩ : Store) q).isComputed = false := by
    intro q
    by_cases hq : q = 0
    · subst hq
      rfl
    · unfold findF
      rw [alook_none_of_fresh _ _ (by
        intro p hp
        simp at hp
        subst hp
        exact fun he => hq he.symm)]
      rfl
  refine ⟨?_, ?_, ?_, ?_, ?_, ?_⟩
  · exact C10_registry_invariant.1
      ⟨[(0, ⟨false, .vNone, false, false, .vNone, .always, .const .vNone, false⟩)], 1⟩
      [] [] [] false true true
      ⟨[(0, ⟨false, .vNone, false, false, .vNone, .always, .const .vNone, false⟩)], 1⟩
      ⟨[], [], [], false, true, true, [], false⟩ rfl
  · exact C10_registry_invariant.2.1 1
      ⟨[(0, ⟨false, .vNone, false, false, .vNone, .always, .const .vNone, false⟩)], 1⟩
      ⟨[("a", .vField 0), ("b", .vInt 1)], [], [("a", 0)], false, false, true, [], false⟩
      "b" (.vInt 2) hIW
      (Or.inr (fun r h => by simp [alook] at h))
      ⟨⟨[(0, ⟨false, .vNone, false, false, .vNone, .always, .const .vNone, false⟩)], 1⟩,
        ⟨[("a", .vField 0), ("b", .vInt 2)], [], [("a", 0)], false, false, true, [], false⟩,
        none⟩ rfl
  · exact C10_registry_invariant.2.2.2.1
      ⟨[(0, ⟨false, .vNone, false, false, .vNone, .always, .const .vNone, false⟩)], 1⟩
      ⟨[("a", .vField 0), ("b", .vInt 1)], [], [("a", 0)], false, false, true, [], false⟩
      "a" hIW
  · exact C10_registry_invariant.2.2.2.2.2.2.1 1
      ⟨[(0, ⟨false, .vNone, false, false, .vNone, .always, .const .vNone, false⟩)], 1⟩
      ⟨[("a", .vField 0), ("b", .vInt 1)], [], [("a", 0)], false, false, true, [], false⟩
      [("b", .vInt 3)] hIW hnc (by intro p hp; simp at hp; subst hp; rfl) (by omega)
      ⟨⟨[(0, ⟨false, .vNone, false, false, .vNone, .always, .const .vNone, false⟩)], 1⟩,
        ⟨[("a", .vField 0), ("b", .vInt 3)], [], [("a", 0)], false, false, true, [], false⟩,
        none⟩ rfl
  · exact C10_registry_invariant.2.2.2.2.2.1
      ⟨[(0, ⟨false, .vNone, false, false, .vNone, .always, .const .vNone, false⟩)], 1⟩
      ⟨[("a", .vField 0), ("b", .vInt 1)], [], [("a", 0)], false, false, true, [], false⟩
      hIW
  · exact C10_registry_invariant.2.2.2.2.2.2.2.2.2.2
      ⟨[(0, ⟨false, .vNone, false, false, .vNone, .always, .const .vNone, false⟩)], 1⟩
      ⟨[("a", .vField 0), ("b", .vInt 1)], [], [("a", 0)], false, false, true,
        [("a", .vField 0), ("b", .vInt 1)], false⟩
      hIX (by
        intro j
        by_cases h1 : ("a" : String) = j <;> by_cases h2 : ("b" : String) = j <;>
          simp [hasKeyB, isFieldAtB, alook, h1, h2])

end DataModel
